import Mathlib

/-!
# Verification of the nxcypher-bolt protocol stack

A shallow embedding, in Lean 4, of the core components of the `nxcypher_bolt`
Python package: the PackStream codec (`packstream.py`), the chunk framer
(`chunking.py`), the connection state machine (`state.py`), the message
dispatch guards (`connection.py`), the result converter (`converter.py`),
the session transaction logic (`session.py`), and the handshake version
selection (`connection.py`).

Conventions used throughout:
* Python `bytes` values are modelled as `List Nat` (each element a byte value).
* Python `int` is modelled as `Int`; machine-width wrap-arounds appear as
  explicit `% 2^w` operations where `struct.pack` performs them.
* Python `float` is modelled by its IEEE-754 bit pattern (a `Nat < 2^64`),
  since `struct.pack('>d', x)`/`struct.unpack('>d', …)` transport exactly
  those 8 bytes; bit-level equality of patterns refines IEEE equality for
  non-NaN values.
* Fallible Python code (raising `ValueError` / `struct.error`) is modelled
  with `Option` or `Except`: `none` / `.error` is an exception.
* Python recursion whose termination is not structural is modelled with a
  fuel argument chosen provably large enough (discussed at each definition);
  every definition stays executable.
-/

namespace NxBolt

/-! ## Byte-level helpers (struct.pack / struct.unpack big-endian) -/

/-- `struct.pack('>H', n)` for `n < 2^16`: two big-endian bytes. -/
def u16be (n : Nat) : List Nat := [n / 256 % 256, n % 256]

/-- `struct.pack('>I', n)` for `n < 2^32`: four big-endian bytes. -/
def u32be (n : Nat) : List Nat :=
  [n / 16777216 % 256, n / 65536 % 256, n / 256 % 256, n % 256]

/-- `struct.pack('>Q', n)` for `n < 2^64`: eight big-endian bytes. -/
def u64be (n : Nat) : List Nat :=
  [n / 72057594037927936 % 256, n / 281474976710656 % 256,
   n / 1099511627776 % 256, n / 4294967296 % 256,
   n / 16777216 % 256, n / 65536 % 256, n / 256 % 256, n % 256]

/-- Big-endian value of a byte list (`struct.unpack` of the matching width). -/
def beVal (bs : List Nat) : Nat := bs.foldl (fun a b => a * 256 + b) 0

/-- Signed reinterpretation of a `bits`-wide unsigned value: the result of
`struct.unpack` with a signed format code on the bytes holding `n`. -/
def sbe (bits : Nat) (n : Nat) : Int :=
  if n < 2 ^ (bits - 1) then (n : Int) else (n : Int) - 2 ^ bits

/-- `PackStreamDecoder._read_bytes(n)`: take `n` bytes, fail on short input. -/
def readN (n : Nat) (bs : List Nat) : Option (List Nat × List Nat) :=
  if n ≤ bs.length then some (bs.take n, bs.drop n) else none

/-! ## PackStream values

The protocol value type of `packstream.py` (spec §3): null, booleans,
integers, floats (as bit patterns), strings (as their UTF-8 bytes), byte
strings, lists, maps (as insertion-ordered key/value pair lists; a Python
`dict` is such a list with pairwise-distinct keys), and tagged structures.
Lists of values and lists of pairs are separate mutual inductives (`VList`,
`PList`) so that all recursions below are structural. -/

mutual

inductive Value where
  | null
  | bool (b : Bool)
  | int (i : Int)
  | float (bits : Nat)
  | str (bs : List Nat)
  | bytes (bs : List Nat)
  | list (xs : VList)
  | map (kvs : PList)
  | struct (tag : Nat) (fields : VList)
deriving Repr, DecidableEq

inductive VList where
  | nil
  | cons (v : Value) (tl : VList)
deriving Repr, DecidableEq

inductive PList where
  | nil
  | cons (k v : Value) (tl : PList)
deriving Repr, DecidableEq

end

/-- Number of elements (`len` of a Python list). -/
def VList.length : VList → Nat
  | .nil => 0
  | .cons _ tl => tl.length + 1

/-- Number of key/value pairs (`len` of a Python dict). -/
def PList.length : PList → Nat
  | .nil => 0
  | .cons _ _ tl => tl.length + 1

/-- Is this value a string?  (Map keys on the wire are meant to be strings.) -/
def Value.isStr : Value → Bool
  | .str _ => true
  | _ => false

/-! ## PackStream encoder (`PackStreamEncoder`) -/

/-- `PackStreamEncoder._encode_int`.  The first branch is Python's
`value & 0xFF` (`value % 256` for `-16 ≤ value < 128`); the sized lanes are
`struct.pack('>b' / '>h' / '>i' / '>q', value)`, whose two's-complement bytes
are the big-endian bytes of `value % 2^w`; `struct.pack('>q')` raises for
values outside the 64-bit range (`none`). -/
def encodeInt (i : Int) : Option (List Nat) :=
  if -16 ≤ i ∧ i < 128 then some [(i % 256).toNat]
  else if -128 ≤ i ∧ i < 128 then some [0xC8, (i % 256).toNat]
  else if -32768 ≤ i ∧ i < 32768 then some (0xC9 :: u16be (i % 65536).toNat)
  else if -2147483648 ≤ i ∧ i < 2147483648 then
    some (0xCA :: u32be (i % 4294967296).toNat)
  else if -9223372036854775808 ≤ i ∧ i < 9223372036854775808 then
    some (0xCB :: u64be (i % 18446744073709551616).toNat)
  else none

/-- `PackStreamEncoder._encode_string` on the UTF-8 bytes of the string.
`struct.pack('>I', size)` raises for `size ≥ 2^32` (`none`). -/
def encodeString (s : List Nat) : Option (List Nat) :=
  let n := s.length
  if n < 16 then some ((0x80 ||| n) :: s)
  else if n < 256 then some (0xD0 :: n :: s)
  else if n < 65536 then some (0xD1 :: u16be n ++ s)
  else if n < 4294967296 then some (0xD2 :: u32be n ++ s)
  else none

/-- `PackStreamEncoder._encode_bytes`. -/
def encodeBytes (b : List Nat) : Option (List Nat) :=
  let n := b.length
  if n < 256 then some (0xCC :: n :: b)
  else if n < 65536 then some (0xCD :: u16be n ++ b)
  else if n < 4294967296 then some (0xCE :: u32be n ++ b)
  else none

/-- Header bytes of `PackStreamEncoder._encode_list`. -/
def listHeader (n : Nat) : Option (List Nat) :=
  if n < 16 then some [0x90 ||| n]
  else if n < 256 then some [0xD4, n]
  else if n < 65536 then some (0xD5 :: u16be n)
  else if n < 4294967296 then some (0xD6 :: u32be n)
  else none

/-- Header bytes of `PackStreamEncoder._encode_map`. -/
def mapHeader (n : Nat) : Option (List Nat) :=
  if n < 16 then some [0xA0 ||| n]
  else if n < 256 then some [0xD8, n]
  else if n < 65536 then some (0xD9 :: u16be n)
  else if n < 4294967296 then some (0xDA :: u32be n)
  else none

/-- Header bytes of `PackStreamEncoder._encode_structure` (size header then
the tag byte; `bytearray.append(tag)` raises unless `tag < 256`, and there is
no 32-bit structure lane, so `size ≥ 2^16` raises in `struct.pack('>H')`). -/
def structHeader (n tag : Nat) : Option (List Nat) :=
  if tag < 256 then
    if n < 16 then some [0xB0 ||| n, tag]
    else if n < 256 then some [0xDC, n, tag]
    else if n < 65536 then some (0xDD :: u16be n ++ [tag])
    else none
  else none

mutual

/-- `PackStreamEncoder._encode_value` (the buffer-appending methods are
modelled as returning the bytes they append). -/
def encodeValue : Value → Option (List Nat)
  | .null => some [0xC0]
  | .bool b => some [if b then 0xC3 else 0xC2]
  | .int i => encodeInt i
  | .float bits =>
    -- every Python float has a 64-bit pattern; a larger `bits` value
    -- corresponds to no Python float at all
    if bits < 18446744073709551616 then some (0xC1 :: u64be bits) else none
  | .str s => encodeString s
  | .bytes b => encodeBytes b
  | .list xs => do
    let hd ← listHeader xs.length
    let body ← encodeVList xs
    pure (hd ++ body)
  | .map kvs => do
    let hd ← mapHeader kvs.length
    let body ← encodePList kvs
    pure (hd ++ body)
  | .struct tag fields => do
    let hd ← structHeader fields.length tag
    let body ← encodeVList fields
    pure (hd ++ body)

/-- The `for item in value:` loop of `_encode_list` / `_encode_structure`:
encode each element and concatenate. -/
def encodeVList : VList → Option (List Nat)
  | .nil => some []
  | .cons v tl => do
    let b ← encodeValue v
    let rest ← encodeVList tl
    pure (b ++ rest)

/-- The `for k, v in value.items():` loop of `_encode_map`.  A key is encoded
with `self._encode_string(str(k))`; `str(k)` is the identity on strings, and
we model only string keys (for a non-string key Python would coerce it via
`str`, which we do not model, so the encoder is undefined there). -/
def encodePList : PList → Option (List Nat)
  | .nil => some []
  | .cons k v tl => do
    let kb ← match k with
      | .str s => encodeString s
      | _ => none
    let vb ← encodeValue v
    let rest ← encodePList tl
    pure (kb ++ vb ++ rest)

end

/-! ## PackStream decoder (`PackStreamDecoder`) -/

/-- Decode `n` consecutive values (the list comprehensions
`[self._decode_value() for _ in range(size)]`), with `dec` decoding one
value. -/
def decodeEach (dec : List Nat → Option (Value × List Nat)) :
    Nat → List Nat → Option (VList × List Nat)
  | 0, bs => some (.nil, bs)
  | n + 1, bs => do
    let (v, bs1) ← dec bs
    let (vs, bs2) ← decodeEach dec n bs1
    pure (.cons v vs, bs2)

/-- Decode `n` consecutive key/value pairs (the dict comprehensions
`{self._decode_value(): self._decode_value() for _ in range(size)}`; the key
expression is evaluated before the value expression).  Note that the key is
decoded with the full value decoder: nothing checks that it is a string. -/
def decodePairsN (dec : List Nat → Option (Value × List Nat)) :
    Nat → List Nat → Option (PList × List Nat)
  | 0, bs => some (.nil, bs)
  | n + 1, bs => do
    let (k, bs1) ← dec bs
    let (v, bs2) ← dec bs1
    let (kvs, bs3) ← decodePairsN dec n bs2
    pure (.cons k v kvs, bs3)

/-- One level of `PackStreamDecoder._decode_value`: read the marker byte and
dispatch, following the source's branch order; `dec` is used for the
recursive calls on children.  `none` covers `Unexpected end of data` and
`Unknown marker`. -/
def decodeStep (dec : List Nat → Option (Value × List Nat)) :
    List Nat → Option (Value × List Nat)
  | [] => none
  | marker :: bs =>
    if marker ≤ 0x7F then some (.int marker, bs)
    else if 0x80 ≤ marker ∧ marker ≤ 0x8F then
      (readN (marker &&& 0x0F) bs).map fun (s, r) => (.str s, r)
    else if 0x90 ≤ marker ∧ marker ≤ 0x9F then
      (decodeEach dec (marker &&& 0x0F) bs).map fun (vs, r) => (.list vs, r)
    else if 0xA0 ≤ marker ∧ marker ≤ 0xAF then
      (decodePairsN dec (marker &&& 0x0F) bs).map fun (kvs, r) => (.map kvs, r)
    else if 0xB0 ≤ marker ∧ marker ≤ 0xBF then
      match bs with
      | [] => none
      | tag :: bs1 =>
        (decodeEach dec (marker &&& 0x0F) bs1).map fun (fs, r) =>
          (.struct tag fs, r)
    else if marker = 0xC0 then some (.null, bs)
    else if marker = 0xC1 then
      (readN 8 bs).map fun (b8, r) => (.float (beVal b8), r)
    else if marker = 0xC2 then some (.bool false, bs)
    else if marker = 0xC3 then some (.bool true, bs)
    else if marker = 0xC8 then
      (readN 1 bs).map fun (b1, r) => (.int (sbe 8 (beVal b1)), r)
    else if marker = 0xC9 then
      (readN 2 bs).map fun (b2, r) => (.int (sbe 16 (beVal b2)), r)
    else if marker = 0xCA then
      (readN 4 bs).map fun (b4, r) => (.int (sbe 32 (beVal b4)), r)
    else if marker = 0xCB then
      (readN 8 bs).map fun (b8, r) => (.int (sbe 64 (beVal b8)), r)
    else if 0xF0 ≤ marker then some (.int ((marker : Int) - 256), bs)
    else if marker = 0xCC then
      match bs with
      | [] => none
      | sz :: bs1 => (readN sz bs1).map fun (b, r) => (.bytes b, r)
    else if marker = 0xCD then do
      let (b2, bs1) ← readN 2 bs
      (readN (beVal b2) bs1).map fun (b, r) => (.bytes b, r)
    else if marker = 0xCE then do
      let (b4, bs1) ← readN 4 bs
      (readN (beVal b4) bs1).map fun (b, r) => (.bytes b, r)
    else if marker = 0xD0 then
      match bs with
      | [] => none
      | sz :: bs1 => (readN sz bs1).map fun (s, r) => (.str s, r)
    else if marker = 0xD1 then do
      let (b2, bs1) ← readN 2 bs
      (readN (beVal b2) bs1).map fun (s, r) => (.str s, r)
    else if marker = 0xD2 then do
      let (b4, bs1) ← readN 4 bs
      (readN (beVal b4) bs1).map fun (s, r) => (.str s, r)
    else if marker = 0xD4 then
      match bs with
      | [] => none
      | sz :: bs1 => (decodeEach dec sz bs1).map fun (vs, r) => (.list vs, r)
    else if marker = 0xD5 then do
      let (b2, bs1) ← readN 2 bs
      (decodeEach dec (beVal b2) bs1).map fun (vs, r) => (.list vs, r)
    else if marker = 0xD6 then do
      let (b4, bs1) ← readN 4 bs
      (decodeEach dec (beVal b4) bs1).map fun (vs, r) => (.list vs, r)
    else if marker = 0xD8 then
      match bs with
      | [] => none
      | sz :: bs1 =>
        (decodePairsN dec sz bs1).map fun (kvs, r) => (.map kvs, r)
    else if marker = 0xD9 then do
      let (b2, bs1) ← readN 2 bs
      (decodePairsN dec (beVal b2) bs1).map fun (kvs, r) => (.map kvs, r)
    else if marker = 0xDA then do
      let (b4, bs1) ← readN 4 bs
      (decodePairsN dec (beVal b4) bs1).map fun (kvs, r) => (.map kvs, r)
    else if marker = 0xDC then
      match bs with
      | [] => none
      | sz :: bs1 =>
        match bs1 with
        | [] => none
        | tag :: bs2 =>
          (decodeEach dec sz bs2).map fun (fs, r) => (.struct tag fs, r)
    else if marker = 0xDD then do
      let (b2, bs1) ← readN 2 bs
      match bs1 with
      | [] => none
      | tag :: bs2 =>
        (decodeEach dec (beVal b2) bs2).map fun (fs, r) => (.struct tag fs, r)
    else none

/-- `_decode_value` bounded by a fuel that pays one unit per nesting level. -/
def decodeV (fuel : Nat) : List Nat → Option (Value × List Nat) :=
  Nat.rec (motive := fun _ => List Nat → Option (Value × List Nat))
    (fun _ => none) (fun _ ih => decodeStep ih) fuel

/-- `PackStreamDecoder.decode` / the module-level `decode`: decode the next
value, ignoring trailing bytes; raise (`none`) on empty input.  Python
recurses without fuel, but every `_decode_value` call consumes at least the
marker byte before recursing, so the nesting depth at any point is bounded
by the number of bytes already consumed; with fuel `bs.length` the fuel can
reach `0` only when the input is also exhausted, where both the fuelled and
the unfuelled decoder fail with `Unexpected end of data`. -/
def decode (bs : List Nat) : Option Value :=
  (decodeV bs.length bs).map (·.1)


/-! ## Round-trip lemmas for the byte-level helpers -/

theorem readN_append (l r : List Nat) : readN l.length (l ++ r) = some (l, r) := by
  simp [readN, List.take_left, List.drop_left]

theorem u16be_length (n : Nat) : (u16be n).length = 2 := rfl

theorem u32be_length (n : Nat) : (u32be n).length = 4 := rfl

theorem u64be_length (n : Nat) : (u64be n).length = 8 := rfl

theorem beVal_u16be (n : Nat) (h : n < 65536) : beVal (u16be n) = n := by
  simp [beVal, u16be]
  omega

theorem beVal_u32be (n : Nat) (h : n < 4294967296) : beVal (u32be n) = n := by
  simp [beVal, u32be]
  omega

theorem beVal_u64be (n : Nat) (h : n < 18446744073709551616) :
    beVal (u64be n) = n := by
  simp [beVal, u64be]
  omega

theorem lor_128 : ∀ n, n < 16 → 128 ||| n = 128 + n := by decide

theorem land_128 : ∀ n, n < 16 → (128 + n) &&& 15 = n := by decide

theorem lor_144 : ∀ n, n < 16 → 144 ||| n = 144 + n := by decide

theorem land_144 : ∀ n, n < 16 → (144 + n) &&& 15 = n := by decide

theorem lor_160 : ∀ n, n < 16 → 160 ||| n = 160 + n := by decide

theorem land_160 : ∀ n, n < 16 → (160 + n) &&& 15 = n := by decide

theorem lor_176 : ∀ n, n < 16 → 176 ||| n = 176 + n := by decide

theorem land_176 : ∀ n, n < 16 → (176 + n) &&& 15 = n := by decide

/-! ## Behaviour of one decoder level on each marker shape -/

theorem dstep_tiny_pos (dec : List Nat → Option (Value × List Nat)) (m : Nat)
    (h : m ≤ 127) (bs : List Nat) :
    decodeStep dec (m :: bs) = some (.int m, bs) := by
  simp only [decodeStep]
  rw [if_pos h]

theorem dstep_tiny_neg (dec : List Nat → Option (Value × List Nat)) (m : Nat)
    (h : 240 ≤ m) (bs : List Nat) :
    decodeStep dec (m :: bs) = some (.int ((m : Int) - 256), bs) := by
  simp only [decodeStep]
  repeat rw [if_neg (by omega)]
  rw [if_pos (by omega)]

theorem dstep_tiny_str (dec : List Nat → Option (Value × List Nat)) (n : Nat)
    (h : n < 16) (bs : List Nat) :
    decodeStep dec ((0x80 ||| n) :: bs) =
      (readN n bs).map fun (s, r) => (.str s, r) := by
  rw [lor_128 n h]
  simp only [decodeStep]
  repeat rw [if_neg (by omega)]
  rw [if_pos (by omega), land_128 n h]

theorem dstep_tiny_list (dec : List Nat → Option (Value × List Nat)) (n : Nat)
    (h : n < 16) (bs : List Nat) :
    decodeStep dec ((0x90 ||| n) :: bs) =
      (decodeEach dec n bs).map fun (vs, r) => (.list vs, r) := by
  rw [lor_144 n h]
  simp only [decodeStep]
  repeat rw [if_neg (by omega)]
  rw [if_pos (by omega), land_144 n h]

theorem dstep_tiny_map (dec : List Nat → Option (Value × List Nat)) (n : Nat)
    (h : n < 16) (bs : List Nat) :
    decodeStep dec ((0xA0 ||| n) :: bs) =
      (decodePairsN dec n bs).map fun (kvs, r) => (.map kvs, r) := by
  rw [lor_160 n h]
  simp only [decodeStep]
  repeat rw [if_neg (by omega)]
  rw [if_pos (by omega), land_160 n h]

theorem dstep_tiny_struct (dec : List Nat → Option (Value × List Nat)) (n : Nat)
    (h : n < 16) (tag : Nat) (bs : List Nat) :
    decodeStep dec ((0xB0 ||| n) :: tag :: bs) =
      (decodeEach dec n bs).map fun (fs, r) => (.struct tag fs, r) := by
  rw [lor_176 n h]
  simp only [decodeStep]
  repeat rw [if_neg (by omega)]
  rw [if_pos (by omega), land_176 n h]

theorem dstep_null (dec : List Nat → Option (Value × List Nat)) (bs : List Nat) :
    decodeStep dec (0xC0 :: bs) = some (.null, bs) := by
  simp [decodeStep]

theorem dstep_float (dec : List Nat → Option (Value × List Nat)) (bs : List Nat) :
    decodeStep dec (0xC1 :: bs) =
      (readN 8 bs).map fun (b8, r) => (.float (beVal b8), r) := by
  simp [decodeStep]

theorem dstep_false (dec : List Nat → Option (Value × List Nat)) (bs : List Nat) :
    decodeStep dec (0xC2 :: bs) = some (.bool false, bs) := by
  simp [decodeStep]

theorem dstep_true (dec : List Nat → Option (Value × List Nat)) (bs : List Nat) :
    decodeStep dec (0xC3 :: bs) = some (.bool true, bs) := by
  simp [decodeStep]

theorem dstep_int8 (dec : List Nat → Option (Value × List Nat)) (bs : List Nat) :
    decodeStep dec (0xC8 :: bs) =
      (readN 1 bs).map fun (b1, r) => (.int (sbe 8 (beVal b1)), r) := by
  simp [decodeStep]

theorem dstep_int16 (dec : List Nat → Option (Value × List Nat)) (bs : List Nat) :
    decodeStep dec (0xC9 :: bs) =
      (readN 2 bs).map fun (b2, r) => (.int (sbe 16 (beVal b2)), r) := by
  simp [decodeStep]

theorem dstep_int32 (dec : List Nat → Option (Value × List Nat)) (bs : List Nat) :
    decodeStep dec (0xCA :: bs) =
      (readN 4 bs).map fun (b4, r) => (.int (sbe 32 (beVal b4)), r) := by
  simp [decodeStep]

theorem dstep_int64 (dec : List Nat → Option (Value × List Nat)) (bs : List Nat) :
    decodeStep dec (0xCB :: bs) =
      (readN 8 bs).map fun (b8, r) => (.int (sbe 64 (beVal b8)), r) := by
  simp [decodeStep]

theorem dstep_bytes8 (dec : List Nat → Option (Value × List Nat)) (sz : Nat)
    (bs : List Nat) :
    decodeStep dec (0xCC :: sz :: bs) =
      (readN sz bs).map fun (b, r) => (.bytes b, r) := by
  simp [decodeStep]

theorem dstep_bytes16 (dec : List Nat → Option (Value × List Nat)) (bs : List Nat) :
    decodeStep dec (0xCD :: bs) =
      (readN 2 bs).bind fun (b2, bs1) =>
        (readN (beVal b2) bs1).map fun (b, r) => (.bytes b, r) := by
  simp [decodeStep]

theorem dstep_bytes32 (dec : List Nat → Option (Value × List Nat)) (bs : List Nat) :
    decodeStep dec (0xCE :: bs) =
      (readN 4 bs).bind fun (b4, bs1) =>
        (readN (beVal b4) bs1).map fun (b, r) => (.bytes b, r) := by
  simp [decodeStep]

theorem dstep_str8 (dec : List Nat → Option (Value × List Nat)) (sz : Nat)
    (bs : List Nat) :
    decodeStep dec (0xD0 :: sz :: bs) =
      (readN sz bs).map fun (s, r) => (.str s, r) := by
  simp [decodeStep]

theorem dstep_str16 (dec : List Nat → Option (Value × List Nat)) (bs : List Nat) :
    decodeStep dec (0xD1 :: bs) =
      (readN 2 bs).bind fun (b2, bs1) =>
        (readN (beVal b2) bs1).map fun (s, r) => (.str s, r) := by
  simp [decodeStep]

theorem dstep_str32 (dec : List Nat → Option (Value × List Nat)) (bs : List Nat) :
    decodeStep dec (0xD2 :: bs) =
      (readN 4 bs).bind fun (b4, bs1) =>
        (readN (beVal b4) bs1).map fun (s, r) => (.str s, r) := by
  simp [decodeStep]

theorem dstep_list8 (dec : List Nat → Option (Value × List Nat)) (sz : Nat)
    (bs : List Nat) :
    decodeStep dec (0xD4 :: sz :: bs) =
      (decodeEach dec sz bs).map fun (vs, r) => (.list vs, r) := by
  simp [decodeStep]

theorem dstep_list16 (dec : List Nat → Option (Value × List Nat)) (bs : List Nat) :
    decodeStep dec (0xD5 :: bs) =
      (readN 2 bs).bind fun (b2, bs1) =>
        (decodeEach dec (beVal b2) bs1).map fun (vs, r) => (.list vs, r) := by
  simp [decodeStep]

theorem dstep_list32 (dec : List Nat → Option (Value × List Nat)) (bs : List Nat) :
    decodeStep dec (0xD6 :: bs) =
      (readN 4 bs).bind fun (b4, bs1) =>
        (decodeEach dec (beVal b4) bs1).map fun (vs, r) => (.list vs, r) := by
  simp [decodeStep]

theorem dstep_map8 (dec : List Nat → Option (Value × List Nat)) (sz : Nat)
    (bs : List Nat) :
    decodeStep dec (0xD8 :: sz :: bs) =
      (decodePairsN dec sz bs).map fun (kvs, r) => (.map kvs, r) := by
  simp [decodeStep]

theorem dstep_map16 (dec : List Nat → Option (Value × List Nat)) (bs : List Nat) :
    decodeStep dec (0xD9 :: bs) =
      (readN 2 bs).bind fun (b2, bs1) =>
        (decodePairsN dec (beVal b2) bs1).map fun (kvs, r) => (.map kvs, r) := by
  simp [decodeStep]

theorem dstep_map32 (dec : List Nat → Option (Value × List Nat)) (bs : List Nat) :
    decodeStep dec (0xDA :: bs) =
      (readN 4 bs).bind fun (b4, bs1) =>
        (decodePairsN dec (beVal b4) bs1).map fun (kvs, r) => (.map kvs, r) := by
  simp [decodeStep]

theorem dstep_struct8 (dec : List Nat → Option (Value × List Nat)) (sz tag : Nat)
    (bs : List Nat) :
    decodeStep dec (0xDC :: sz :: tag :: bs) =
      (decodeEach dec sz bs).map fun (fs, r) => (.struct tag fs, r) := by
  simp [decodeStep]

theorem dstep_struct16 (dec : List Nat → Option (Value × List Nat)) (b0 b1 tag : Nat)
    (bs : List Nat) :
    decodeStep dec (0xDD :: b0 :: b1 :: tag :: bs) =
      (decodeEach dec (beVal [b0, b1]) bs).map fun (fs, r) =>
        (.struct tag fs, r) := by
  simp [decodeStep, readN]


theorem decodeV_succ (n : Nat) : decodeV (n + 1) = decodeStep (decodeV n) := rfl

theorem readN_exact (n : Nat) (l r : List Nat) (h : l.length = n) :
    readN n (l ++ r) = some (l, r) := by
  subst h; exact readN_append l r

theorem beVal_pair (a b : Nat) : beVal [a, b] = a * 256 + b := by
  simp [beVal]

theorem decodeEach_cons_of (dec : List Nat → Option (Value × List Nat))
    (n : Nat) (bs bs1 bs2 : List Nat) (v : Value) (vs : VList)
    (h1 : dec bs = some (v, bs1))
    (h2 : decodeEach dec n bs1 = some (vs, bs2)) :
    decodeEach dec (n + 1) bs = some (.cons v vs, bs2) := by
  simp [decodeEach, h1, h2]

theorem decodePairsN_cons_of (dec : List Nat → Option (Value × List Nat))
    (n : Nat) (bs bs1 bs2 bs3 : List Nat) (k v : Value) (kvs : PList)
    (h1 : dec bs = some (k, bs1)) (h2 : dec bs1 = some (v, bs2))
    (h3 : decodePairsN dec n bs2 = some (kvs, bs3)) :
    decodePairsN dec (n + 1) bs = some (.cons k v kvs, bs3) := by
  simp [decodePairsN, h1, h2, h3]

/-! ## The PackStream round-trip law

`rt_value`: any successful run of the encoder produces bytes that the
decoder (with any fuel at least the byte count, in particular the fuel
used by `decode`) parses back to exactly the original value, consuming
exactly the encoded bytes. -/

mutual

theorem rt_value (v : Value) (bs : List Nat) (he : encodeValue v = some bs)
    (g : Nat) (rest : List Nat) (hg : bs.length ≤ g) :
    decodeV g (bs ++ rest) = some (v, rest) := by
  cases v with
  | null =>
    simp only [encodeValue, Option.some.injEq] at he
    subst he
    obtain ⟨g', rfl⟩ : ∃ g', g = g' + 1 := ⟨g - 1, by simp at hg; omega⟩
    rw [decodeV_succ]
    simpa using dstep_null (decodeV g') rest
  | bool b =>
    simp only [encodeValue, Option.some.injEq] at he
    subst he
    obtain ⟨g', rfl⟩ : ∃ g', g = g' + 1 := ⟨g - 1, by simp at hg; omega⟩
    rw [decodeV_succ]
    cases b with
    | false => simpa using dstep_false (decodeV g') rest
    | true => simpa using dstep_true (decodeV g') rest
  | int i =>
    simp only [encodeValue, encodeInt] at he
    obtain ⟨g', rfl⟩ : ∃ g', g = g' + 1 := by
      refine ⟨g - 1, ?_⟩
      split_ifs at he <;> simp only [Option.some.injEq] at he <;>
        subst he <;> simp at hg <;> omega
    rw [decodeV_succ]
    split_ifs at he with h1 h2 h3 h4 h5 <;>
      simp only [Option.some.injEq] at he <;> subst he
    · -- tiny int, one byte `i & 0xFF`
      rw [List.singleton_append]
      rcases le_or_lt 0 i with hnn | hneg
      · rw [dstep_tiny_pos (decodeV g') _ (by omega) rest]
        simp only [Option.some.injEq, Prod.mk.injEq, Value.int.injEq, and_true]
        omega
      · rw [dstep_tiny_neg (decodeV g') _ (by omega) rest]
        simp only [Option.some.injEq, Prod.mk.injEq, Value.int.injEq, and_true]
        omega
    · -- INT_8
      rw [show ([0xC8, (i % 256).toNat] ++ rest : List Nat)
          = 0xC8 :: ([(i % 256).toNat] ++ rest) from rfl]
      rw [dstep_int8 (decodeV g'), readN_exact 1 _ _ (by simp)]
      simp only [Option.map_some', Option.some.injEq, Prod.mk.injEq,
        Value.int.injEq, and_true, beVal, List.foldl, sbe]
      split_ifs <;> omega
    · -- INT_16
      rw [show ((0xC9 :: u16be (i % 65536).toNat) ++ rest : List Nat)
          = 0xC9 :: (u16be (i % 65536).toNat ++ rest) from rfl]
      rw [dstep_int16 (decodeV g'), readN_exact 2 _ _ (u16be_length _)]
      rw [show (Option.map
            (fun x => (Value.int (sbe 16 (beVal x.1)), x.2))
            (some (u16be (i % 65536).toNat, rest)))
          = some (Value.int (sbe 16 (beVal (u16be (i % 65536).toNat))), rest)
          from rfl]
      rw [beVal_u16be _ (by omega)]
      simp only [Option.some.injEq, Prod.mk.injEq, Value.int.injEq, and_true, sbe]
      split_ifs <;> omega
    · -- INT_32
      rw [show ((0xCA :: u32be (i % 4294967296).toNat) ++ rest : List Nat)
          = 0xCA :: (u32be (i % 4294967296).toNat ++ rest) from rfl]
      rw [dstep_int32 (decodeV g'), readN_exact 4 _ _ (u32be_length _)]
      rw [show (Option.map
            (fun x => (Value.int (sbe 32 (beVal x.1)), x.2))
            (some (u32be (i % 4294967296).toNat, rest)))
          = some (Value.int (sbe 32 (beVal (u32be (i % 4294967296).toNat))), rest)
          from rfl]
      rw [beVal_u32be _ (by omega)]
      simp only [Option.some.injEq, Prod.mk.injEq, Value.int.injEq, and_true, sbe]
      split_ifs <;> omega
    · -- INT_64
      rw [show ((0xCB :: u64be (i % 18446744073709551616).toNat) ++ rest : List Nat)
          = 0xCB :: (u64be (i % 18446744073709551616).toNat ++ rest) from rfl]
      rw [dstep_int64 (decodeV g'), readN_exact 8 _ _ (u64be_length _)]
      rw [show (Option.map
            (fun x => (Value.int (sbe 64 (beVal x.1)), x.2))
            (some (u64be (i % 18446744073709551616).toNat, rest)))
          = some (Value.int
              (sbe 64 (beVal (u64be (i % 18446744073709551616).toNat))), rest)
          from rfl]
      rw [beVal_u64be _ (by omega)]
      simp only [Option.some.injEq, Prod.mk.injEq, Value.int.injEq, and_true, sbe]
      split_ifs <;> omega
  | float bits =>
    simp only [encodeValue] at he
    split_ifs at he with hb
    · simp only [Option.some.injEq] at he
      subst he
      obtain ⟨g', rfl⟩ : ∃ g', g = g' + 1 := ⟨g - 1, by simp at hg; omega⟩
      rw [decodeV_succ,
        show ((0xC1 :: u64be bits) ++ rest : List Nat)
          = 0xC1 :: (u64be bits ++ rest) from rfl,
        dstep_float (decodeV g'), readN_exact 8 _ _ (u64be_length _)]
      show some (Value.float (beVal (u64be bits)), rest)
        = some (Value.float bits, rest)
      rw [beVal_u64be _ hb]
  | str s =>
    simp only [encodeValue, encodeString] at he
    obtain ⟨g', rfl⟩ : ∃ g', g = g' + 1 := by
      refine ⟨g - 1, ?_⟩
      split_ifs at he <;> simp only [Option.some.injEq] at he <;>
        subst he <;> simp at hg <;> omega
    rw [decodeV_succ]
    split_ifs at he with h1 h2 h3 h4 <;>
      simp only [Option.some.injEq] at he <;> subst he
    · rw [show (((0x80 ||| s.length) :: s) ++ rest : List Nat)
          = (0x80 ||| s.length) :: (s ++ rest) from rfl,
        dstep_tiny_str (decodeV g') _ h1, readN_exact _ _ _ rfl]
      rfl
    · rw [show ((0xD0 :: s.length :: s) ++ rest : List Nat)
          = 0xD0 :: s.length :: (s ++ rest) from rfl,
        dstep_str8 (decodeV g'), readN_exact _ _ _ rfl]
      rfl
    · rw [show ((0xD1 :: u16be s.length ++ s) ++ rest : List Nat)
          = 0xD1 :: (u16be s.length ++ (s ++ rest)) by simp,
        dstep_str16 (decodeV g'), readN_exact 2 _ _ (u16be_length _)]
      simp only [Option.some_bind']
      rw [beVal_u16be _ h3, readN_exact _ _ _ rfl]
      rfl
    · rw [show ((0xD2 :: u32be s.length ++ s) ++ rest : List Nat)
          = 0xD2 :: (u32be s.length ++ (s ++ rest)) by simp,
        dstep_str32 (decodeV g'), readN_exact 4 _ _ (u32be_length _)]
      simp only [Option.some_bind']
      rw [beVal_u32be _ h4, readN_exact _ _ _ rfl]
      rfl
  | bytes b =>
    simp only [encodeValue, encodeBytes] at he
    obtain ⟨g', rfl⟩ : ∃ g', g = g' + 1 := by
      refine ⟨g - 1, ?_⟩
      split_ifs at he <;> simp only [Option.some.injEq] at he <;>
        subst he <;> simp at hg <;> omega
    rw [decodeV_succ]
    split_ifs at he with h1 h2 h3 <;>
      simp only [Option.some.injEq] at he <;> subst he
    · rw [show ((0xCC :: b.length :: b) ++ rest : List Nat)
          = 0xCC :: b.length :: (b ++ rest) from rfl,
        dstep_bytes8 (decodeV g'), readN_exact _ _ _ rfl]
      rfl
    · rw [show ((0xCD :: u16be b.length ++ b) ++ rest : List Nat)
          = 0xCD :: (u16be b.length ++ (b ++ rest)) by simp,
        dstep_bytes16 (decodeV g'), readN_exact 2 _ _ (u16be_length _)]
      simp only [Option.some_bind']
      rw [beVal_u16be _ h2, readN_exact _ _ _ rfl]
      rfl
    · rw [show ((0xCE :: u32be b.length ++ b) ++ rest : List Nat)
          = 0xCE :: (u32be b.length ++ (b ++ rest)) by simp,
        dstep_bytes32 (decodeV g'), readN_exact 4 _ _ (u32be_length _)]
      simp only [Option.some_bind']
      rw [beVal_u32be _ h3, readN_exact _ _ _ rfl]
      rfl
  | list xs =>
    simp only [encodeValue] at he
    cases hhd : listHeader xs.length with
    | none => rw [hhd] at he; simp at he
    | some hd =>
    rw [hhd] at he
    cases hbody : encodeVList xs with
    | none => rw [hbody] at he; simp at he
    | some body =>
    rw [hbody] at he
    simp at he
    subst he
    simp only [listHeader] at hhd
    obtain ⟨g', rfl⟩ : ∃ g', g = g' + 1 := by
      refine ⟨g - 1, ?_⟩
      split_ifs at hhd <;> simp only [Option.some.injEq] at hhd <;>
        subst hhd <;> simp at hg <;> omega
    rw [decodeV_succ]
    have hlen : body.length ≤ g' := by
      split_ifs at hhd <;> simp only [Option.some.injEq] at hhd <;>
        subst hhd <;> simp at hg ⊢ <;> omega
    split_ifs at hhd with h1 h2 h3 h4 <;>
      simp only [Option.some.injEq] at hhd <;> subst hhd
    · rw [show (([0x90 ||| xs.length] ++ body) ++ rest : List Nat)
          = (0x90 ||| xs.length) :: (body ++ rest) by simp,
        dstep_tiny_list (decodeV g') _ h1,
        rt_vlist xs body hbody g' rest hlen]
      rfl
    · rw [show (([0xD4, xs.length] ++ body) ++ rest : List Nat)
          = 0xD4 :: xs.length :: (body ++ rest) by simp,
        dstep_list8 (decodeV g'),
        rt_vlist xs body hbody g' rest hlen]
      rfl
    · rw [show (((0xD5 :: u16be xs.length) ++ body) ++ rest : List Nat)
          = 0xD5 :: (u16be xs.length ++ (body ++ rest)) by simp,
        dstep_list16 (decodeV g'), readN_exact 2 _ _ (u16be_length _)]
      simp only [Option.some_bind']
      rw [beVal_u16be _ h3, rt_vlist xs body hbody g' rest hlen]
      rfl
    · rw [show (((0xD6 :: u32be xs.length) ++ body) ++ rest : List Nat)
          = 0xD6 :: (u32be xs.length ++ (body ++ rest)) by simp,
        dstep_list32 (decodeV g'), readN_exact 4 _ _ (u32be_length _)]
      simp only [Option.some_bind']
      rw [beVal_u32be _ h4, rt_vlist xs body hbody g' rest hlen]
      rfl
  | map kvs =>
    simp only [encodeValue] at he
    cases hhd : mapHeader kvs.length with
    | none => rw [hhd] at he; simp at he
    | some hd =>
    rw [hhd] at he
    cases hbody : encodePList kvs with
    | none => rw [hbody] at he; simp at he
    | some body =>
    rw [hbody] at he
    simp at he
    subst he
    simp only [mapHeader] at hhd
    obtain ⟨g', rfl⟩ : ∃ g', g = g' + 1 := by
      refine ⟨g - 1, ?_⟩
      split_ifs at hhd <;> simp only [Option.some.injEq] at hhd <;>
        subst hhd <;> simp at hg <;> omega
    rw [decodeV_succ]
    have hlen : body.length ≤ g' := by
      split_ifs at hhd <;> simp only [Option.some.injEq] at hhd <;>
        subst hhd <;> simp at hg ⊢ <;> omega
    split_ifs at hhd with h1 h2 h3 h4 <;>
      simp only [Option.some.injEq] at hhd <;> subst hhd
    · rw [show (([0xA0 ||| kvs.length] ++ body) ++ rest : List Nat)
          = (0xA0 ||| kvs.length) :: (body ++ rest) by simp,
        dstep_tiny_map (decodeV g') _ h1,
        rt_plist kvs body hbody g' rest hlen]
      rfl
    · rw [show (([0xD8, kvs.length] ++ body) ++ rest : List Nat)
          = 0xD8 :: kvs.length :: (body ++ rest) by simp,
        dstep_map8 (decodeV g'),
        rt_plist kvs body hbody g' rest hlen]
      rfl
    · rw [show (((0xD9 :: u16be kvs.length) ++ body) ++ rest : List Nat)
          = 0xD9 :: (u16be kvs.length ++ (body ++ rest)) by simp,
        dstep_map16 (decodeV g'), readN_exact 2 _ _ (u16be_length _)]
      simp only [Option.some_bind']
      rw [beVal_u16be _ h3, rt_plist kvs body hbody g' rest hlen]
      rfl
    · rw [show (((0xDA :: u32be kvs.length) ++ body) ++ rest : List Nat)
          = 0xDA :: (u32be kvs.length ++ (body ++ rest)) by simp,
        dstep_map32 (decodeV g'), readN_exact 4 _ _ (u32be_length _)]
      simp only [Option.some_bind']
      rw [beVal_u32be _ h4, rt_plist kvs body hbody g' rest hlen]
      rfl
  | struct tag fields =>
    simp only [encodeValue] at he
    cases hhd : structHeader fields.length tag with
    | none => rw [hhd] at he; simp at he
    | some hd =>
    rw [hhd] at he
    cases hbody : encodeVList fields with
    | none => rw [hbody] at he; simp at he
    | some body =>
    rw [hbody] at he
    simp at he
    subst he
    simp only [structHeader] at hhd
    rw [if_pos (show tag < 256 by by_contra hc; simp [if_neg hc] at hhd)] at hhd
    obtain ⟨g', rfl⟩ : ∃ g', g = g' + 1 := by
      refine ⟨g - 1, ?_⟩
      split_ifs at hhd <;> simp only [Option.some.injEq] at hhd <;>
        subst hhd <;> simp at hg <;> omega
    rw [decodeV_succ]
    have hlen : body.length ≤ g' := by
      split_ifs at hhd <;> simp only [Option.some.injEq] at hhd <;>
        subst hhd <;> simp at hg ⊢ <;> omega
    split_ifs at hhd with h1 h2 h3 <;>
      simp only [Option.some.injEq] at hhd <;> subst hhd
    · rw [show (([0xB0 ||| fields.length, tag] ++ body) ++ rest : List Nat)
          = (0xB0 ||| fields.length) :: tag :: (body ++ rest) by simp,
        dstep_tiny_struct (decodeV g') _ h1,
        rt_vlist fields body hbody g' rest hlen]
      rfl
    · rw [show (([0xDC, fields.length, tag] ++ body) ++ rest : List Nat)
          = 0xDC :: fields.length :: tag :: (body ++ rest) by simp,
        dstep_struct8 (decodeV g'),
        rt_vlist fields body hbody g' rest hlen]
      rfl
    · rw [show (((0xDD :: u16be fields.length ++ [tag]) ++ body) ++ rest : List Nat)
          = 0xDD :: (fields.length / 256 % 256) :: (fields.length % 256)
            :: tag :: (body ++ rest) by simp [u16be],
        dstep_struct16 (decodeV g'), beVal_pair,
        show fields.length / 256 % 256 * 256 + fields.length % 256
          = fields.length by omega,
        rt_vlist fields body hbody g' rest hlen]
      rfl

theorem rt_vlist (xs : VList) (bs : List Nat) (he : encodeVList xs = some bs)
    (g : Nat) (rest : List Nat) (hg : bs.length ≤ g) :
    decodeEach (decodeV g) xs.length (bs ++ rest) = some (xs, rest) := by
  cases xs with
  | nil =>
    simp only [encodeVList, Option.some.injEq] at he
    subst he
    rfl
  | cons v tl =>
    simp only [encodeVList] at he
    cases hbv : encodeValue v with
    | none => rw [hbv] at he; simp at he
    | some bv =>
    rw [hbv] at he
    cases hbtl : encodeVList tl with
    | none => rw [hbtl] at he; simp at he
    | some btl =>
    rw [hbtl] at he
    simp at he
    subst he
    exact decodeEach_cons_of (decodeV g) tl.length _ _ _ v tl
      (by rw [List.append_assoc]
          exact rt_value v bv hbv g (btl ++ rest) (by simp at hg ⊢; omega))
      (rt_vlist tl btl hbtl g rest (by simp at hg ⊢; omega))

theorem rt_plist (kvs : PList) (bs : List Nat) (he : encodePList kvs = some bs)
    (g : Nat) (rest : List Nat) (hg : bs.length ≤ g) :
    decodePairsN (decodeV g) kvs.length (bs ++ rest) = some (kvs, rest) := by
  cases kvs with
  | nil =>
    simp only [encodePList, Option.some.injEq] at he
    subst he
    rfl
  | cons k v tl =>
    cases k with
    | null => exact Option.noConfusion he
    | bool b => exact Option.noConfusion he
    | int i => exact Option.noConfusion he
    | float bits => exact Option.noConfusion he
    | bytes b => exact Option.noConfusion he
    | list xs => exact Option.noConfusion he
    | map m => exact Option.noConfusion he
    | struct t f => exact Option.noConfusion he
    | str s =>
    replace he : (do
        let kb ← encodeString s
        let vb ← encodeValue v
        let tb ← encodePList tl
        pure (kb ++ vb ++ tb) : Option (List Nat)) = some bs := he
    cases hks : encodeString s with
    | none => rw [hks] at he; simp at he
    | some kb =>
    rw [hks] at he
    cases hvb : encodeValue v with
    | none => rw [hvb] at he; simp at he
    | some vb =>
    rw [hvb] at he
    cases hbtl : encodePList tl with
    | none => rw [hbtl] at he; simp at he
    | some btl =>
    rw [hbtl] at he
    simp at he
    subst he
    exact decodePairsN_cons_of (decodeV g) tl.length _ _ _ _ (.str s) v tl
      (by rw [List.append_assoc, List.append_assoc]
          exact rt_value (.str s) kb (by simpa [encodeValue] using hks) g _
            (by simp at hg ⊢; omega))
      (rt_value v vb hvb g _ (by simp at hg ⊢; omega))
      (rt_plist tl btl hbtl g rest (by simp at hg ⊢; omega))

end


/-! ## Claims about the PackStream codec -/

/-- **C1**: for every protocol value `v` (null, booleans, 64-bit integers,
floats, strings, bytes, and lists, string-keyed maps and tagged structures
built from these — exactly the values the encoder accepts, i.e. those with
`encodeValue v = some bs`), decoding the encoder's output returns a value
equal to `v`.  Floats are modelled by their IEEE-754 bit patterns, so this
equality is bit-level, which refines IEEE equality modulo NaN. -/
theorem packstream_roundtrip (v : Value) (bs : List Nat)
    (he : encodeValue v = some bs) : decode bs = some v := by
  have h := rt_value v bs he bs.length [] (le_refl _)
  rw [List.append_nil] at h
  simp [decode, h]

/-- A concrete instance of the round-trip law: a map with a string key whose
value is a list holding an Int16-lane integer and a null. -/
def rtExample : Value :=
  .map (.cons (.str [110]) (.list (.cons (.int 300) (.cons .null .nil))) .nil)

theorem packstream_roundtrip_witness :
    encodeValue rtExample = some [0xA1, 0x81, 110, 0x92, 0xC9, 1, 44, 0xC0] ∧
      decode [0xA1, 0x81, 110, 0x92, 0xC9, 1, 44, 0xC0] = some rtExample :=
  ⟨by decide, packstream_roundtrip rtExample _ (by decide)⟩

/-- **C10**: there is an input on which `decode` succeeds and returns a map
with a non-string key: the map branches decode each key with the full value
decoder, so `A1 01 02` decodes to the one-pair map `{1: 2}`. -/
theorem decode_map_nonstring_key :
    decode [0xA1, 0x01, 0x02] = some (.map (.cons (.int 1) (.int 2) .nil)) ∧
      (Value.int 1).isStr = false := by
  decide

/-- The integer-lane selection exactly as the claim words it: a single
tiny-positive byte for `[0,127]`, a single tiny-negative byte for
`[-16,-1]`, and otherwise the Int8/Int16/Int32/Int64 form chosen by the
smallest signed range containing the value (byte contents per
`struct.pack`).  Written from the specification, to be compared against
`encodeInt`. -/
def claimIntLane (i : Int) : List Nat :=
  if 0 ≤ i ∧ i ≤ 127 then [i.toNat]
  else if -16 ≤ i ∧ i ≤ -1 then [(i + 256).toNat]
  else if -128 ≤ i ∧ i ≤ 127 then [0xC8, (i % 256).toNat]
  else if -32768 ≤ i ∧ i ≤ 32767 then 0xC9 :: u16be (i % 65536).toNat
  else if -2147483648 ≤ i ∧ i ≤ 2147483647 then
    0xCA :: u32be (i % 4294967296).toNat
  else 0xCB :: u64be (i % 18446744073709551616).toNat

/-- **C7**: for every 64-bit integer, `_encode_int` emits the narrowest
lane, as described by `claimIntLane`. -/
theorem encodeInt_narrowest (i : Int)
    (h1 : -9223372036854775808 ≤ i) (h2 : i < 9223372036854775808) :
    encodeInt i = some (claimIntLane i) := by
  simp only [encodeInt, claimIntLane]
  split_ifs <;>
    first
      | rfl
      | (exfalso; omega)
      | (simp only [Option.some.injEq, List.cons.injEq, and_true]; omega)

theorem encodeInt_narrowest_witness :
    encodeInt 300 = some (claimIntLane 300) ∧
      claimIntLane 300 = [0xC9, 1, 44] :=
  ⟨encodeInt_narrowest 300 (by decide) (by decide), by decide⟩


/-! ## Message chunking (`chunking.py`)

`ChunkWriter.write` frames a message as length-prefixed chunks plus a
`00 00` end marker.  `ChunkReader` is a stateful reassembler; its
`feed`/`_try_read_message` nested loops are flattened here into a single
small-step function `readerStep` (one iteration of the `while True:` loop
of `_try_read_message`) iterated by `drainReader` until no progress is
possible; messages returned by `_try_read_message` and collected by `feed`
are exactly the messages emitted along the way. -/

def MAX_CHUNK_SIZE : Nat := 65535

/-- The `while offset < len(data):` loop of `ChunkWriter.write` with the
default `max_chunk_size` (65535): the concatenated chunk headers and chunk
payloads.  Each chunk takes `min (len - offset) 65535 ≥ 1` bytes, so the
loop terminates. -/
def chunkBody (data : List Nat) : List Nat :=
  if data = [] then []
  else
    u16be (min data.length MAX_CHUNK_SIZE) ++
      data.take (min data.length MAX_CHUNK_SIZE) ++
      chunkBody (data.drop (min data.length MAX_CHUNK_SIZE))
termination_by data.length
decreasing_by
  simp only [List.length_drop]
  have : data.length ≠ 0 := by
    intro h
    exact ‹data ≠ []› (List.eq_nil_of_length_eq_zero h)
  simp only [MAX_CHUNK_SIZE]
  omega

/-- `ChunkWriter.write` (default configuration): chunks, then end marker. -/
def chunkWrite (data : List Nat) : List Nat := chunkBody data ++ [0, 0]

/-- The three fields of a `ChunkReader`: `_buffer`, `_message_buffer`,
`_expected_chunk_size`. -/
structure ChunkReaderState where
  buffer : List Nat
  msgbuf : List Nat
  exp : Option Nat
deriving Repr, DecidableEq

/-- A fresh `ChunkReader()`. -/
def initReader : ChunkReaderState := ⟨[], [], none⟩

/-- What one loop iteration of `_try_read_message` did. -/
inductive StepRes where
  | stuck
  | silent
  | emit (m : List Nat)
deriving Repr, DecidableEq

/-- One iteration of the `while True:` loop of `_try_read_message`:
read a chunk-size header when none is pending (2 bytes, big-endian);
on a zero-size header either emit the accumulated message or silently
skip an empty message; otherwise move one complete chunk payload into the
message accumulator.  `.stuck` is `return None` (not enough buffered
data). -/
def readerStep (s : ChunkReaderState) : ChunkReaderState × StepRes :=
  match s.exp with
  | none =>
    match s.buffer with
    | b0 :: b1 :: rest =>
      ({ s with buffer := rest, exp := some (b0 * 256 + b1) }, .silent)
    | _ => (s, .stuck)
  | some 0 =>
    match s.msgbuf with
    | [] => ({ s with exp := none }, .silent)
    | _ :: _ => ({ s with exp := none, msgbuf := [] }, .emit s.msgbuf)
  | some (n + 1) =>
    if s.buffer.length < n + 1 then (s, .stuck)
    else
      ({ buffer := s.buffer.drop (n + 1),
         msgbuf := s.msgbuf ++ s.buffer.take (n + 1),
         exp := none }, .silent)

/-- Weight of a pending chunk-size header in the termination measure. -/
def expWeight : Option Nat → Nat
  | some 0 => 1
  | _ => 0

theorem expWeight_le (e : Option Nat) : expWeight e ≤ 1 := by
  rcases e with _ | (_ | n) <;> simp [expWeight]

/-- Termination measure for the reader loop: every non-stuck step strictly
decreases it. -/
def readerMeasure (s : ChunkReaderState) : Nat :=
  2 * s.buffer.length + expWeight s.exp

theorem expWeight_none : expWeight none = 0 := rfl

theorem expWeight_some_succ (n : Nat) : expWeight (some (n + 1)) = 0 := rfl

theorem readerStep_silent_measure {s s' : ChunkReaderState}
    (h : readerStep s = (s', .silent)) : readerMeasure s' < readerMeasure s := by
  unfold readerStep at h
  rcases s with ⟨buffer, msgbuf, exp⟩
  rcases exp with _ | (_ | n)
  · rcases buffer with _ | ⟨b0, _ | ⟨b1, rest⟩⟩
    · simp at h
    · simp at h
    · simp only [Prod.mk.injEq, and_true] at h
      subst h
      have hw := expWeight_le (some (b0 * 256 + b1))
      simp only [readerMeasure, List.length_cons, expWeight_none]
      omega
  · rcases msgbuf with _ | ⟨m0, mtl⟩
    · simp only [Prod.mk.injEq, and_true] at h
      subst h
      simp [readerMeasure, expWeight_none, expWeight]
    · simp at h
  · simp only at h
    split_ifs at h with hlt
    · simp at h
    · simp only [Prod.mk.injEq, and_true] at h
      subst h
      simp only [readerMeasure, List.length_drop, expWeight_none,
        expWeight_some_succ]
      omega

theorem readerStep_emit_measure {s s' : ChunkReaderState} {m : List Nat}
    (h : readerStep s = (s', .emit m)) : readerMeasure s' < readerMeasure s := by
  unfold readerStep at h
  rcases s with ⟨buffer, msgbuf, exp⟩
  rcases exp with _ | (_ | n)
  · rcases buffer with _ | ⟨b0, _ | ⟨b1, rest⟩⟩ <;> simp at h
  · rcases msgbuf with _ | ⟨m0, mtl⟩
    · simp at h
    · simp only [Prod.mk.injEq] at h
      obtain ⟨h1, -⟩ := h
      subst h1
      simp [readerMeasure, expWeight_none, expWeight]
  · simp only at h
    split_ifs at h with hlt <;> simp at h

/-- Iterate `readerStep` until stuck, collecting emitted messages: the
combined effect of `ChunkReader.feed`'s `while True:` loop over
`_try_read_message` (once the new bytes are in the buffer). -/
def drainReader (s : ChunkReaderState) : ChunkReaderState × List (List Nat) :=
  match h : readerStep s with
  | (_, .stuck) => (s, [])
  | (s', .silent) => drainReader s'
  | (s', .emit m) =>
    let (s2, ms) := drainReader s'
    (s2, m :: ms)
termination_by readerMeasure s
decreasing_by
  exacts [readerStep_silent_measure h, readerStep_emit_measure h]

/-- `ChunkReader.feed`: extend the buffer, then drain. -/
def feedReader (s : ChunkReaderState) (data : List Nat) :
    ChunkReaderState × List (List Nat) :=
  drainReader { s with buffer := s.buffer ++ data }

/-- Feed a sequence of byte slices in order, collecting all messages. -/
def feedAll (s : ChunkReaderState) : List (List Nat) →
    ChunkReaderState × List (List Nat)
  | [] => (s, [])
  | d :: ds =>
    let (s1, out1) := feedReader s d
    let (s2, out2) := feedAll s1 ds
    (s2, out1 ++ out2)


theorem drainReader_stuck {s s' : ChunkReaderState}
    (h : readerStep s = (s', .stuck)) : drainReader s = (s, []) := by
  rw [drainReader]
  split <;> simp_all

theorem drainReader_silent {s s' : ChunkReaderState}
    (h : readerStep s = (s', .silent)) : drainReader s = drainReader s' := by
  rw [drainReader]
  split <;> simp_all

theorem drainReader_emit {s s' : ChunkReaderState} {m : List Nat}
    (h : readerStep s = (s', .emit m)) :
    drainReader s = ((drainReader s').1, m :: (drainReader s').2) := by
  rw [drainReader]
  split <;> simp_all

/-- A非-stuck step commutes with appending extra bytes to the buffer:
whatever the loop does before it runs out of data does not depend on
bytes that arrive later. -/
theorem readerStep_extend {s s' : ChunkReaderState} {r : StepRes}
    (h : readerStep s = (s', r)) (hr : r ≠ .stuck) (b : List Nat) :
    readerStep { s with buffer := s.buffer ++ b }
      = ({ s' with buffer := s'.buffer ++ b }, r) := by
  unfold readerStep at h ⊢
  rcases s with ⟨buffer, msgbuf, exp⟩
  rcases exp with _ | (_ | n)
  · rcases buffer with _ | ⟨b0, _ | ⟨b1, rest⟩⟩
    · simp_all
    · simp_all
    · simp only [Prod.mk.injEq] at h
      obtain ⟨h1, rfl⟩ := h
      subst h1
      simp
  · rcases msgbuf with _ | ⟨m0, mtl⟩ <;>
      (simp only [Prod.mk.injEq] at h; obtain ⟨h1, rfl⟩ := h; subst h1; simp)
  · simp only at h ⊢
    split_ifs at h with hlt
    · simp_all
    · simp only [Prod.mk.injEq] at h
      obtain ⟨h1, rfl⟩ := h
      subst h1
      rw [if_neg (by simp; omega)]
      simp only [Prod.mk.injEq, ChunkReaderState.mk.injEq, and_true, true_and]
      constructor
      · rw [List.drop_append_of_le_length (by omega)]
      · rw [List.take_append_of_le_length (by omega)]

/-- Draining after appending extra bytes equals draining first and then
draining the residual state with the extra bytes: the reader processes a
byte stream identically no matter how it is sliced. -/
theorem drainReader_extend (s : ChunkReaderState) (b : List Nat) :
    drainReader { s with buffer := s.buffer ++ b }
      = ((drainReader { (drainReader s).1 with
            buffer := (drainReader s).1.buffer ++ b }).1,
         (drainReader s).2 ++
           (drainReader { (drainReader s).1 with
             buffer := (drainReader s).1.buffer ++ b }).2) := by
  match hstep : readerStep s with
  | (s', .stuck) =>
    rw [drainReader_stuck hstep]
    simp
  | (s', .silent) =>
    rw [drainReader_silent hstep,
      drainReader_silent (readerStep_extend hstep (by simp) b)]
    exact drainReader_extend s' b
  | (s', .emit m) =>
    rw [drainReader_emit hstep,
      drainReader_emit (readerStep_extend hstep (by simp) b)]
    have ih := drainReader_extend s' b
    simp only [ih, List.cons_append]
termination_by readerMeasure s
decreasing_by
  exacts [readerStep_silent_measure hstep, readerStep_emit_measure hstep]

/-- A state on which `_try_read_message` makes no progress. -/
def Quiescent (s : ChunkReaderState) : Prop := readerStep s = (s, .stuck)

theorem quiescent_init : Quiescent initReader := rfl

theorem readerStep_stuck_self {s s' : ChunkReaderState}
    (h : readerStep s = (s', .stuck)) : s' = s := by
  unfold readerStep at h
  rcases s with ⟨buffer, msgbuf, exp⟩
  rcases exp with _ | (_ | n)
  · rcases buffer with _ | ⟨b0, _ | ⟨b1, rest⟩⟩ <;> simp_all
  · rcases msgbuf with _ | _ <;> simp_all
  · simp only at h
    split_ifs at h <;> simp_all

/-- The residual state after draining is quiescent. -/
theorem drainReader_quiescent (s : ChunkReaderState) :
    Quiescent (drainReader s).1 := by
  match hstep : readerStep s with
  | (s', .stuck) =>
    rw [drainReader_stuck hstep]
    have := readerStep_stuck_self hstep
    subst this
    exact hstep
  | (s', .silent) =>
    rw [drainReader_silent hstep]
    exact drainReader_quiescent s'
  | (s', .emit m) =>
    rw [drainReader_emit hstep]
    exact drainReader_quiescent s'
termination_by readerMeasure s
decreasing_by
  exacts [readerStep_silent_measure hstep, readerStep_emit_measure hstep]

theorem drainReader_of_quiescent {s : ChunkReaderState} (h : Quiescent s) :
    drainReader s = (s, []) := drainReader_stuck h

/-- `feed` splits over concatenation of the fed data. -/
theorem feedReader_append (s : ChunkReaderState) (a b : List Nat) :
    feedReader s (a ++ b)
      = ((feedReader (feedReader s a).1 b).1,
         (feedReader s a).2 ++ (feedReader (feedReader s a).1 b).2) := by
  unfold feedReader
  rw [← List.append_assoc]
  exact drainReader_extend { s with buffer := s.buffer ++ a } b

/-- Feeding slices one at a time equals feeding their concatenation, from
any quiescent starting state. -/
theorem feedAll_eq_feed_join (s : ChunkReaderState) (hq : Quiescent s)
    (ps : List (List Nat)) : feedAll s ps = feedReader s ps.flatten := by
  induction ps generalizing s with
  | nil =>
    simp only [feedAll, List.flatten_nil, feedReader, List.append_nil]
    exact (drainReader_of_quiescent hq).symm
  | cons d ds ih =>
    simp only [feedAll, List.flatten_cons]
    rw [feedReader_append s d ds.flatten,
      ih (feedReader s d).1 (drainReader_quiescent _)]

theorem chunkBody_nil : chunkBody [] = [] := by
  rw [chunkBody]
  simp

theorem chunkBody_ne_nil {d : List Nat} (h : d ≠ []) :
    chunkBody d
      = u16be (min d.length MAX_CHUNK_SIZE) ++
          d.take (min d.length MAX_CHUNK_SIZE) ++
          chunkBody (d.drop (min d.length MAX_CHUNK_SIZE)) := by
  rw [chunkBody]
  simp [h]

theorem chunkWrite_nil : chunkWrite [] = [0, 0] := by
  simp [chunkWrite, chunkBody_nil]

/-- The framed bytes of a nonempty message: header, payload, then the
framing of the remainder. -/
theorem chunkWrite_ne_nil {d : List Nat} (h : d ≠ []) :
    chunkWrite d
      = u16be (min d.length MAX_CHUNK_SIZE) ++
          (d.take (min d.length MAX_CHUNK_SIZE) ++
            chunkWrite (d.drop (min d.length MAX_CHUNK_SIZE))) := by
  rw [chunkWrite, chunkBody_ne_nil h, chunkWrite]
  simp

theorem readerStep_header (b0 b1 : Nat) (rest acc : List Nat) :
    readerStep ⟨b0 :: b1 :: rest, acc, none⟩
      = (⟨rest, acc, some (b0 * 256 + b1)⟩, .silent) := rfl

theorem readerStep_consume (c : Nat) (hc : 0 < c) (pay Y acc : List Nat)
    (hlen : pay.length = c) :
    readerStep ⟨pay ++ Y, acc, some c⟩ = (⟨Y, acc ++ pay, none⟩, .silent) := by
  obtain ⟨c', rfl⟩ : ∃ c', c = c' + 1 := ⟨c - 1, by omega⟩
  unfold readerStep
  simp only
  rw [if_neg (by simp only [List.length_append, hlen]; omega)]
  rw [← hlen, List.take_left, List.drop_left]

theorem readerStep_short (c : Nat) (hc : 0 < c) (buf acc : List Nat)
    (h : buf.length < c) :
    readerStep ⟨buf, acc, some c⟩ = (⟨buf, acc, some c⟩, .stuck) := by
  obtain ⟨c', rfl⟩ : ∃ c', c = c' + 1 := ⟨c - 1, by omega⟩
  unfold readerStep
  simp only
  rw [if_pos h]

/-- Draining a whole framed message from a header boundary yields exactly
one message: the pending accumulator followed by the message bytes. -/
theorem drain_frame (d acc : List Nat) (h : d ≠ [] ∨ acc ≠ []) :
    drainReader ⟨chunkWrite d, acc, none⟩ = (initReader, [acc ++ d]) := by
  by_cases hd : d = []
  · subst hd
    rcases acc with _ | ⟨a, as⟩
    · simp at h
    · rw [chunkWrite_nil,
        drainReader_silent (readerStep_header 0 0 [] (a :: as)),
        show (0 * 256 + 0 : Nat) = 0 from rfl,
        drainReader_emit
          (show readerStep ⟨[], a :: as, some 0⟩
              = (⟨[], [], none⟩, .emit (a :: as)) from rfl),
        drainReader_stuck
          (show readerStep ⟨[], [], none⟩ = (⟨[], [], none⟩, .stuck) from rfl)]
      simp [initReader]
  · have hmin1 : 0 < min d.length MAX_CHUNK_SIZE := by
      have : d.length ≠ 0 := fun hz => hd (List.eq_nil_of_length_eq_zero hz)
      simp [MAX_CHUNK_SIZE]
      omega
    have hminle : min d.length MAX_CHUNK_SIZE ≤ d.length := Nat.min_le_left _ _
    have htake : (d.take (min d.length MAX_CHUNK_SIZE)).length
        = min d.length MAX_CHUNK_SIZE := by
      simp [List.length_take]
    rw [chunkWrite_ne_nil hd]
    rw [show u16be (min d.length MAX_CHUNK_SIZE) ++
          (d.take (min d.length MAX_CHUNK_SIZE) ++
            chunkWrite (d.drop (min d.length MAX_CHUNK_SIZE)))
        = (min d.length MAX_CHUNK_SIZE) / 256 % 256 ::
            (min d.length MAX_CHUNK_SIZE) % 256 ::
            (d.take (min d.length MAX_CHUNK_SIZE) ++
              chunkWrite (d.drop (min d.length MAX_CHUNK_SIZE))) from rfl]
    rw [drainReader_silent (readerStep_header _ _ _ _)]
    rw [show (min d.length MAX_CHUNK_SIZE) / 256 % 256 * 256 +
          (min d.length MAX_CHUNK_SIZE) % 256 = min d.length MAX_CHUNK_SIZE by
      have : min d.length MAX_CHUNK_SIZE ≤ MAX_CHUNK_SIZE := Nat.min_le_right _ _
      simp only [MAX_CHUNK_SIZE] at this ⊢
      omega]
    rw [drainReader_silent (readerStep_consume _ hmin1 _ _ _ htake)]
    rw [drain_frame (d.drop (min d.length MAX_CHUNK_SIZE))
        (acc ++ d.take (min d.length MAX_CHUNK_SIZE))
        (Or.inr (by
          intro hz
          rcases List.append_eq_nil.mp hz with ⟨-, htz⟩
          have : (d.take (min d.length MAX_CHUNK_SIZE)).length = 0 := by
            rw [htz]; rfl
          omega))]
    rw [List.append_assoc, List.take_append_drop]
termination_by d.length
decreasing_by
  simp only [List.length_drop]
  omega

/-- Feeding any proper prefix of a framed message produces no output. -/
theorem drain_frame_prefix (d : List Nat) :
    ∀ acc k, k < (chunkWrite d).length →
      (drainReader ⟨(chunkWrite d).take k, acc, none⟩).2 = [] := by
  intro acc k hk
  by_cases hd : d = []
  · subst hd
    rw [chunkWrite_nil] at hk ⊢
    simp only [List.length_cons, List.length_nil] at hk
    interval_cases k
    · rw [show List.take 0 [0, 0] = ([] : List Nat) from rfl,
        drainReader_stuck
          (show readerStep ⟨[], acc, none⟩ = (⟨[], acc, none⟩, .stuck) from rfl)]
    · rw [show List.take 1 [0, 0] = ([0] : List Nat) from rfl,
        drainReader_stuck
          (show readerStep ⟨[0], acc, none⟩ = (⟨[0], acc, none⟩, .stuck)
            from rfl)]
  · have hmin1 : 0 < min d.length MAX_CHUNK_SIZE := by
      have : d.length ≠ 0 := fun hz => hd (List.eq_nil_of_length_eq_zero hz)
      simp [MAX_CHUNK_SIZE]
      omega
    have hminle : min d.length MAX_CHUNK_SIZE ≤ d.length := Nat.min_le_left _ _
    have htake : (d.take (min d.length MAX_CHUNK_SIZE)).length
        = min d.length MAX_CHUNK_SIZE := by
      simp [List.length_take]
    rw [chunkWrite_ne_nil hd] at hk ⊢
    rcases Nat.lt_or_ge k 2 with hk2 | hk2
    · interval_cases k
      · rw [List.take_zero,
          drainReader_stuck
            (show readerStep ⟨[], acc, none⟩ = (⟨[], acc, none⟩, .stuck)
              from rfl)]
      · rw [show (u16be (min d.length MAX_CHUNK_SIZE) ++
              (d.take (min d.length MAX_CHUNK_SIZE) ++
                chunkWrite (d.drop (min d.length MAX_CHUNK_SIZE)))).take 1
            = [(min d.length MAX_CHUNK_SIZE) / 256 % 256] from rfl,
          drainReader_stuck
            (show readerStep ⟨[(min d.length MAX_CHUNK_SIZE) / 256 % 256],
                acc, none⟩
              = (⟨[(min d.length MAX_CHUNK_SIZE) / 256 % 256], acc, none⟩,
                 .stuck) from rfl)]
    · rw [show (u16be (min d.length MAX_CHUNK_SIZE) ++
            (d.take (min d.length MAX_CHUNK_SIZE) ++
              chunkWrite (d.drop (min d.length MAX_CHUNK_SIZE)))).take k
          = (min d.length MAX_CHUNK_SIZE) / 256 % 256 ::
              (min d.length MAX_CHUNK_SIZE) % 256 ::
              ((d.take (min d.length MAX_CHUNK_SIZE) ++
                chunkWrite (d.drop (min d.length MAX_CHUNK_SIZE))).take (k - 2))
          by
        obtain ⟨k', rfl⟩ : ∃ k', k = k' + 2 := ⟨k - 2, by omega⟩
        rfl]
      rw [drainReader_silent (readerStep_header _ _ _ _)]
      rw [show (min d.length MAX_CHUNK_SIZE) / 256 % 256 * 256 +
            (min d.length MAX_CHUNK_SIZE) % 256 = min d.length MAX_CHUNK_SIZE by
        have : min d.length MAX_CHUNK_SIZE ≤ MAX_CHUNK_SIZE :=
          Nat.min_le_right _ _
        simp only [MAX_CHUNK_SIZE] at this ⊢
        omega]
      rcases Nat.lt_or_ge (k - 2) (min d.length MAX_CHUNK_SIZE) with hkc | hkc
      · have hshortlen : ((d.take (min d.length MAX_CHUNK_SIZE) ++
            chunkWrite (d.drop (min d.length MAX_CHUNK_SIZE))).take
              (k - 2)).length < min d.length MAX_CHUNK_SIZE := by
          simp only [List.length_take]
          omega
        rw [drainReader_stuck (readerStep_short _ hmin1 _ acc hshortlen)]
      · rw [List.take_append_eq_append_take, htake,
          List.take_of_length_le (by omega)]
        rw [drainReader_silent
          (readerStep_consume _ hmin1 _ _ _ htake)]
        exact drain_frame_prefix (d.drop (min d.length MAX_CHUNK_SIZE))
          (acc ++ d.take (min d.length MAX_CHUNK_SIZE))
          (k - 2 - min d.length MAX_CHUNK_SIZE)
          (by
            simp only [List.length_append, u16be_length, List.length_take]
              at hk
            omega)
termination_by d.length
decreasing_by
  simp only [List.length_drop]
  omega

/-! ## Claims about the chunk framer -/

/-- **C2, counterexample**: for the empty message, feeding all of
`ChunkWriter.write(b"")` (the bare `00 00` terminator) to a fresh reader
yields no message at all — not the one-element list `[b""]` the claim
demands: the reader skips empty messages. -/
theorem chunk_empty_message_skipped :
    chunkWrite [] = [0, 0] ∧
      (feedAll initReader [[0, 0]]).2 = [] ∧
      ([] : List (List Nat)) ≠ [([] : List Nat)] := by
  refine ⟨chunkWrite_nil, ?_, by simp⟩
  rw [feedAll_eq_feed_join initReader quiescent_init]
  simp only [List.flatten_cons, List.flatten_nil, List.append_nil]
  rw [feedReader,
    show ({ initReader with buffer := initReader.buffer ++ [0, 0] }
        : ChunkReaderState) = ⟨[0, 0], [], none⟩ from rfl,
    drainReader_silent (readerStep_header 0 0 [] []),
    show (0 * 256 + 0 : Nat) = 0 from rfl,
    drainReader_silent
      (show readerStep ⟨[], [], some 0⟩ = (⟨[], [], none⟩, .silent) from rfl),
    drainReader_stuck
      (show readerStep ⟨[], [], none⟩ = (⟨[], [], none⟩, .stuck) from rfl)]

/-- **C2, amended**: for every *nonempty* message byte string `m` and every
partition of `ChunkWriter.write(m)` into slices fed in order to
`ChunkReader.feed`, the reader yields exactly `[m]` once all bytes are fed,
and yields nothing while the framed bytes (ending in the terminator) are
still incomplete.  (For the empty message the reader yields `[]`: see the
counterexample.) -/
theorem chunk_partition_roundtrip (m : List Nat) (hm : m ≠ [])
    (ps : List (List Nat)) (hps : ps.flatten = chunkWrite m) :
    (feedAll initReader ps).2 = [m] ∧
      ∀ k, (ps.take k).flatten.length < (chunkWrite m).length →
        (feedAll initReader (ps.take k)).2 = [] := by
  constructor
  · rw [feedAll_eq_feed_join initReader quiescent_init, hps, feedReader,
      show ({ initReader with buffer := initReader.buffer ++ chunkWrite m }
          : ChunkReaderState) = ⟨chunkWrite m, [], none⟩ from rfl,
      drain_frame m [] (Or.inl hm)]
    simp
  · intro k hk
    have hsplit : chunkWrite m = (ps.take k).flatten ++ (ps.drop k).flatten := by
      rw [← List.flatten_append, List.take_append_drop, hps]
    have hpre : (ps.take k).flatten
        = (chunkWrite m).take (ps.take k).flatten.length := by
      rw [hsplit, List.take_left]
    rw [feedAll_eq_feed_join initReader quiescent_init, feedReader,
      show ({ initReader with
            buffer := initReader.buffer ++ (ps.take k).flatten }
          : ChunkReaderState) = ⟨(ps.take k).flatten, [], none⟩ from rfl,
      hpre]
    exact drain_frame_prefix m [] _ hk

theorem chunk_partition_roundtrip_witness :
    (feedAll initReader [[0, 1, 7], [0, 0]]).2 = [[7]] :=
  (chunk_partition_roundtrip [7] (by simp) [[0, 1, 7], [0, 0]]
    (by simp [chunkWrite, chunkBody, u16be, MAX_CHUNK_SIZE])).1

/-! ## Connection state machine (`state.py`) -/

/-- The eight Bolt connection states. -/
inductive ConnectionState where
  | NEGOTIATION
  | AUTHENTICATION
  | READY
  | STREAMING
  | TX_READY
  | TX_STREAMING
  | FAILED
  | DEFUNCT
deriving Repr, DecidableEq, Fintype

open ConnectionState

/-- `VALID_TRANSITIONS`: the transition table of `state.py`, as the
membership test `new_state in VALID_TRANSITIONS.get(self._state, set())`
performed by `can_transition_to`. -/
def canTransitionTo (s t : ConnectionState) : Bool :=
  match s with
  | NEGOTIATION => t = AUTHENTICATION ∨ t = DEFUNCT
  | AUTHENTICATION => t = READY ∨ t = DEFUNCT
  | READY => t = STREAMING ∨ t = TX_READY ∨ t = FAILED ∨ t = DEFUNCT
  | STREAMING => t = READY ∨ t = STREAMING ∨ t = FAILED ∨ t = DEFUNCT
  | TX_READY => t = TX_STREAMING ∨ t = READY ∨ t = FAILED ∨ t = DEFUNCT
  | TX_STREAMING => t = TX_READY ∨ t = TX_STREAMING ∨ t = FAILED ∨ t = DEFUNCT
  | FAILED => t = READY ∨ t = DEFUNCT
  | DEFUNCT => false

deriving instance DecidableEq for Except

/-- `StateMachine.transition_to`: set the state when the edge is valid,
raise `ValueError` (modelled as `.error`) leaving the state unchanged
otherwise. -/
def transitionTo (s t : ConnectionState) : Except String ConnectionState :=
  if canTransitionTo s t then .ok t
  else .error "Invalid state transition"

/-- The edges of the valid-transition table, written out pair by pair (the
claim's table, against which `transitionTo` is checked). -/
def validEdges : List (ConnectionState × ConnectionState) :=
  [(NEGOTIATION, AUTHENTICATION), (NEGOTIATION, DEFUNCT),
   (AUTHENTICATION, READY), (AUTHENTICATION, DEFUNCT),
   (READY, STREAMING), (READY, TX_READY), (READY, FAILED), (READY, DEFUNCT),
   (STREAMING, READY), (STREAMING, STREAMING), (STREAMING, FAILED),
   (STREAMING, DEFUNCT),
   (TX_READY, TX_STREAMING), (TX_READY, READY), (TX_READY, FAILED),
   (TX_READY, DEFUNCT),
   (TX_STREAMING, TX_READY), (TX_STREAMING, TX_STREAMING),
   (TX_STREAMING, FAILED), (TX_STREAMING, DEFUNCT),
   (FAILED, READY), (FAILED, DEFUNCT)]

/-- **C3**: `transition_to(t)` from state `s` succeeds — returning the new
state `t` — exactly when `s → t` is in the valid-transition table, and
errors (leaving the state unchanged, since the exception propagates before
`_state` is assigned) on every other pair; `DEFUNCT` has no outgoing
edges. -/
theorem state_machine_transitions :
    (∀ s t : ConnectionState,
        (transitionTo s t = .ok t ↔ (s, t) ∈ validEdges) ∧
        (transitionTo s t = .ok t ∨
          transitionTo s t = .error "Invalid state transition")) ∧
      ∀ t : ConnectionState, transitionTo DEFUNCT t
        = .error "Invalid state transition" := by
  decide

/-! ## Message tags (`messages.py`) and dispatch guards (`connection.py`) -/

def MSG_HELLO : Nat := 0x01
def MSG_GOODBYE : Nat := 0x02
def MSG_RESET : Nat := 0x0F
def MSG_RUN : Nat := 0x10
def MSG_BEGIN : Nat := 0x11
def MSG_COMMIT : Nat := 0x12
def MSG_ROLLBACK : Nat := 0x13
def MSG_DISCARD : Nat := 0x2F
def MSG_PULL : Nat := 0x3F
def MSG_ROUTE : Nat := 0x66
def MSG_LOGON : Nat := 0x6A
def MSG_LOGOFF : Nat := 0x6B
def MSG_TELEMETRY : Nat := 0x54

/-- The first response a message handler emits (at the granularity of the
handlers' leading state guards). -/
inductive FirstResponse where
  | success
  | failure
  | ignored
  | body    -- the guard passed; the response depends on query execution
  | silent  -- no response at all (GOODBYE only closes the connection)
deriving Repr, DecidableEq

/-- `_handle_hello` / `_handle_logon`: IGNORED unless in AUTHENTICATION;
its body then unconditionally sends SUCCESS. -/
def helloFirstResponse (st : ConnectionState) : FirstResponse :=
  if st ≠ AUTHENTICATION then .ignored else .success

/-- The first response of `BoltConnection._dispatch_message` for each
request tag in each connection state, following each handler's code:
HELLO/LOGON guard on AUTHENTICATION; GOODBYE sends nothing; RESET always
sends SUCCESS; RUN guards on READY/TX_READY, PULL/DISCARD on
STREAMING/TX_STREAMING, BEGIN on READY, COMMIT/ROLLBACK on TX_READY — each
of these sends IGNORED when the state is FAILED and FAILURE in any other
disallowed state, and proceeds to its body (`.body`) otherwise;
ROUTE, LOGOFF and TELEMETRY have no state guard at all and send SUCCESS
unconditionally; an unknown tag gets FAILURE. -/
def dispatchFirstResponse (tag : Nat) (st : ConnectionState) : FirstResponse :=
  if tag = MSG_HELLO then helloFirstResponse st
  else if tag = MSG_LOGON then helloFirstResponse st
  else if tag = MSG_GOODBYE then .silent
  else if tag = MSG_RESET then .success
  else if tag = MSG_RUN then
    if st = READY ∨ st = TX_READY then .body
    else if st = FAILED then .ignored else .failure
  else if tag = MSG_PULL then
    if st = STREAMING ∨ st = TX_STREAMING then .body
    else if st = FAILED then .ignored else .failure
  else if tag = MSG_DISCARD then
    if st = STREAMING ∨ st = TX_STREAMING then .body
    else if st = FAILED then .ignored else .failure
  else if tag = MSG_BEGIN then
    if st = READY then .body
    else if st = FAILED then .ignored else .failure
  else if tag = MSG_COMMIT then
    if st = TX_READY then .body
    else if st = FAILED then .ignored else .failure
  else if tag = MSG_ROLLBACK then
    if st = TX_READY then .body
    else if st = FAILED then .ignored else .failure
  else if tag = MSG_ROUTE then .success
  else if tag = MSG_LOGOFF then .success
  else if tag = MSG_TELEMETRY then .success
  else .failure

/-- **C4, counterexample**: in the FAILED state, TELEMETRY (and likewise
ROUTE and LOGOFF) is answered with SUCCESS, not IGNORED: `_handle_telemetry`,
`_handle_route` and `_handle_logoff` have no state guard. -/
theorem failed_state_telemetry_not_ignored :
    dispatchFirstResponse MSG_TELEMETRY .FAILED = .success ∧
      dispatchFirstResponse MSG_ROUTE .FAILED = .success ∧
      dispatchFirstResponse MSG_LOGOFF .FAILED = .success ∧
      FirstResponse.success ≠ FirstResponse.ignored := by
  decide

/-- **C4, amended**: in the FAILED state every request tag other than RESET,
GOODBYE, ROUTE, LOGOFF and TELEMETRY is answered with IGNORED (and not
SUCCESS, RECORD, or FAILURE); ROUTE, LOGOFF and TELEMETRY are answered with
SUCCESS even in FAILED. -/
theorem failed_state_ignored :
    dispatchFirstResponse MSG_HELLO .FAILED = .ignored ∧
      dispatchFirstResponse MSG_LOGON .FAILED = .ignored ∧
      dispatchFirstResponse MSG_RUN .FAILED = .ignored ∧
      dispatchFirstResponse MSG_PULL .FAILED = .ignored ∧
      dispatchFirstResponse MSG_DISCARD .FAILED = .ignored ∧
      dispatchFirstResponse MSG_BEGIN .FAILED = .ignored ∧
      dispatchFirstResponse MSG_COMMIT .FAILED = .ignored ∧
      dispatchFirstResponse MSG_ROLLBACK .FAILED = .ignored ∧
      dispatchFirstResponse MSG_ROUTE .FAILED = .success ∧
      dispatchFirstResponse MSG_LOGOFF .FAILED = .success ∧
      dispatchFirstResponse MSG_TELEMETRY .FAILED = .success := by
  decide

/-! ## Result converter ID tables (`converter.py`) -/

/-- An edge tuple: `(start, end, key)` when `edge_key` is truthy, otherwise
`(start, end)` (modelled with a `none` third component). -/
abbrev EdgeTuple := String × String × Option String

/-- The per-connection state of `ResultConverter` relevant to ID
assignment: `_node_id_map`, `_edge_id_map` (insertion-ordered dicts,
modelled as association lists), `_next_node_id` and `_next_edge_id`.
Node keys (Python `Hashable`) are modelled as strings. -/
structure ResultConverter where
  nodeIdMap : List (String × Nat)
  edgeIdMap : List (EdgeTuple × Nat)
  nextNodeId : Nat
  nextEdgeId : Nat
deriving Repr, DecidableEq

/-- `ResultConverter.__init__`: empty tables, counters at 0. -/
def freshConverter : ResultConverter := ⟨[], [], 0, 0⟩

/-- `ResultConverter._get_node_id`. -/
def getNodeId (c : ResultConverter) (key : String) : Nat × ResultConverter :=
  match c.nodeIdMap.lookup key with
  | some i => (i, c)
  | none =>
    (c.nextNodeId,
     { c with nodeIdMap := c.nodeIdMap ++ [(key, c.nextNodeId)],
              nextNodeId := c.nextNodeId + 1 })

/-- `ResultConverter._get_edge_id`. -/
def getEdgeId (c : ResultConverter) (et : EdgeTuple) : Nat × ResultConverter :=
  match c.edgeIdMap.lookup et with
  | some i => (i, c)
  | none =>
    (c.nextEdgeId,
     { c with edgeIdMap := c.edgeIdMap ++ [(et, c.nextEdgeId)],
              nextEdgeId := c.nextEdgeId + 1 })

/-- `BoltConnection._handle_commit` (line 495): on COMMIT the connection
replaces its converter with a freshly constructed `ResultConverter`,
discarding both ID tables. -/
def handleCommitConverter (_ : ResultConverter) : ResultConverter :=
  freshConverter

/-- All assigned IDs are below the next counter (holds for the fresh
converter and is preserved by every assignment). -/
def ConvInv (c : ResultConverter) : Prop :=
  (∀ p ∈ c.nodeIdMap, p.2 < c.nextNodeId) ∧
    (∀ p ∈ c.edgeIdMap, p.2 < c.nextEdgeId)

theorem lookup_append_some {α β : Type} [BEq α] (m : List (α × β))
    (p : α × β) (k : α) (i : β) (h : m.lookup k = some i) :
    (m ++ [p]).lookup k = some i := by
  induction m with
  | nil => simp [List.lookup] at h
  | cons q qs ih =>
    rcases q with ⟨qk, qv⟩
    rw [List.cons_append]
    simp only [List.lookup] at h ⊢
    cases hbe : (k == qk) with
    | true => rw [hbe] at h; exact h
    | false => rw [hbe] at h; exact ih h

theorem lookup_append_self {α β : Type} [BEq α] [LawfulBEq α]
    (m : List (α × β)) (k : α) (i : β) (h : m.lookup k = none) :
    (m ++ [(k, i)]).lookup k = some i := by
  induction m with
  | nil => simp [List.lookup]
  | cons q qs ih =>
    rcases q with ⟨qk, qv⟩
    rw [List.cons_append]
    simp only [List.lookup] at h ⊢
    cases hbe : (k == qk) with
    | true =>
      rw [hbe] at h
      have h' : some qv = none := h
      exact absurd h' (by simp)
    | false => rw [hbe] at h; exact ih h

theorem lookup_some_mem {α β : Type} [BEq α] [LawfulBEq α]
    (m : List (α × β)) (k : α) (i : β) (h : m.lookup k = some i) :
    (k, i) ∈ m := by
  induction m with
  | nil => simp [List.lookup] at h
  | cons q qs ih =>
    rcases q with ⟨qk, qv⟩
    simp only [List.lookup] at h
    cases hbe : (k == qk) with
    | true =>
      rw [hbe] at h
      have h' : some qv = some i := h
      have hk : k = qk := by simpa using hbe
      have hv : qv = i := by injection h'
      subst hk
      subst hv
      simp
    | false =>
      rw [hbe] at h
      exact List.mem_cons_of_mem _ (ih h)

theorem getNodeId_of_lookup_some (c : ResultConverter) (k : String) (i : Nat)
    (h : c.nodeIdMap.lookup k = some i) : getNodeId c k = (i, c) := by
  unfold getNodeId
  rw [h]

theorem getEdgeId_of_lookup_some (c : ResultConverter) (e : EdgeTuple) (i : Nat)
    (h : c.edgeIdMap.lookup e = some i) : getEdgeId c e = (i, c) := by
  unfold getEdgeId
  rw [h]

theorem getNodeId_lookup_self (c : ResultConverter) (k : String) :
    ((getNodeId c k).2).nodeIdMap.lookup k = some (getNodeId c k).1 := by
  unfold getNodeId
  cases hl : c.nodeIdMap.lookup k with
  | some i => simpa using hl
  | none => exact lookup_append_self _ _ _ hl

theorem getEdgeId_lookup_self (c : ResultConverter) (e : EdgeTuple) :
    ((getEdgeId c e).2).edgeIdMap.lookup e = some (getEdgeId c e).1 := by
  unfold getEdgeId
  cases hl : c.edgeIdMap.lookup e with
  | some i => simpa using hl
  | none => exact lookup_append_self _ _ _ hl

theorem getNodeId_preserves (c : ResultConverter) (k k' : String) (i' : Nat)
    (h : c.nodeIdMap.lookup k' = some i') :
    ((getNodeId c k).2).nodeIdMap.lookup k' = some i' := by
  unfold getNodeId
  cases hl : c.nodeIdMap.lookup k with
  | some i => exact h
  | none => exact lookup_append_some _ _ _ _ h

theorem getEdgeId_preserves (c : ResultConverter) (e e' : EdgeTuple) (j' : Nat)
    (h : c.edgeIdMap.lookup e' = some j') :
    ((getEdgeId c e).2).edgeIdMap.lookup e' = some j' := by
  unfold getEdgeId
  cases hl : c.edgeIdMap.lookup e with
  | some i => exact h
  | none => exact lookup_append_some _ _ _ _ h

theorem getNodeId_next_mono (c : ResultConverter) (k : String) :
    c.nextNodeId ≤ ((getNodeId c k).2).nextNodeId := by
  unfold getNodeId
  cases hl : c.nodeIdMap.lookup k with
  | some i => exact Nat.le_refl _
  | none => exact Nat.le_succ _

theorem getEdgeId_next_mono (c : ResultConverter) (e : EdgeTuple) :
    c.nextEdgeId ≤ ((getEdgeId c e).2).nextEdgeId := by
  unfold getEdgeId
  cases hl : c.edgeIdMap.lookup e with
  | some i => exact Nat.le_refl _
  | none => exact Nat.le_succ _

theorem getNodeId_edgeMap (c : ResultConverter) (k : String) :
    ((getNodeId c k).2).edgeIdMap = c.edgeIdMap := by
  unfold getNodeId
  cases hl : c.nodeIdMap.lookup k <;> rfl

theorem getEdgeId_nodeMap (c : ResultConverter) (e : EdgeTuple) :
    ((getEdgeId c e).2).nodeIdMap = c.nodeIdMap := by
  unfold getEdgeId
  cases hl : c.edgeIdMap.lookup e <;> rfl

theorem getNodeId_inv {c : ResultConverter} (h : ConvInv c) (k : String) :
    ConvInv (getNodeId c k).2 := by
  obtain ⟨hn, he⟩ := h
  unfold getNodeId
  cases hl : c.nodeIdMap.lookup k with
  | some i => exact ⟨hn, he⟩
  | none =>
    refine ⟨?_, he⟩
    intro p hp
    simp only [List.mem_append, List.mem_singleton] at hp
    rcases hp with hp | rfl
    · exact Nat.lt_succ_of_lt (hn p hp)
    · exact Nat.lt_succ_self _

theorem getEdgeId_inv {c : ResultConverter} (h : ConvInv c) (e : EdgeTuple) :
    ConvInv (getEdgeId c e).2 := by
  obtain ⟨hn, he⟩ := h
  unfold getEdgeId
  cases hl : c.edgeIdMap.lookup e with
  | some i => exact ⟨hn, he⟩
  | none =>
    refine ⟨hn, ?_⟩
    intro p hp
    simp only [List.mem_append, List.mem_singleton] at hp
    rcases hp with hp | rfl
    · exact Nat.lt_succ_of_lt (he p hp)
    · exact Nat.lt_succ_self _

/-- **C5, counterexample**: converter IDs are *not* stable across COMMIT:
the node key `"b"` gets ID 1 before the COMMIT and ID 0 afterwards, because
`_handle_commit` installs a fresh converter with empty tables (so the ID 1
is dropped and the ID 0 is recycled for a new key). -/
theorem converter_id_reset_on_commit :
    (getNodeId (getNodeId freshConverter "a").2 "b").1 = 1 ∧
      (getNodeId
        (handleCommitConverter
          (getNodeId (getNodeId freshConverter "a").2 "b").2) "b").1 = 0 ∧
      (1 : Nat) ≠ 0 := by
  decide

/-- **C5, amended**: for the lifetime of a single `ResultConverter` — the
converter is replaced on COMMIT, resetting the tables — ID assignment is
stable and monotone: converting the same node key (or edge tuple) again
yields the same ID and leaves the converter unchanged; existing assignments
survive every call, and their IDs stay strictly below the next counter, so
a fresh ID never repeats an existing one; the counters never decrease; and
node-ID calls do not touch the edge table nor vice versa. -/
theorem converter_id_stable (c : ResultConverter) (h : ConvInv c)
    (k : String) (e : EdgeTuple) :
    ConvInv (getNodeId c k).2 ∧
      ConvInv (getEdgeId c e).2 ∧
      getNodeId (getNodeId c k).2 k = ((getNodeId c k).1, (getNodeId c k).2) ∧
      getEdgeId (getEdgeId c e).2 e = ((getEdgeId c e).1, (getEdgeId c e).2) ∧
      c.nextNodeId ≤ ((getNodeId c k).2).nextNodeId ∧
      c.nextEdgeId ≤ ((getEdgeId c e).2).nextEdgeId ∧
      ((getNodeId c k).2).edgeIdMap = c.edgeIdMap ∧
      ((getEdgeId c e).2).nodeIdMap = c.nodeIdMap ∧
      (∀ k' i', c.nodeIdMap.lookup k' = some i' →
        ((getNodeId c k).2).nodeIdMap.lookup k' = some i' ∧
          i' < c.nextNodeId) ∧
      (∀ e' j', c.edgeIdMap.lookup e' = some j' →
        ((getEdgeId c e).2).edgeIdMap.lookup e' = some j' ∧
          j' < c.nextEdgeId) :=
  ⟨getNodeId_inv h k,
   getEdgeId_inv h e,
   getNodeId_of_lookup_some _ _ _ (getNodeId_lookup_self c k),
   getEdgeId_of_lookup_some _ _ _ (getEdgeId_lookup_self c e),
   getNodeId_next_mono c k,
   getEdgeId_next_mono c e,
   getNodeId_edgeMap c k,
   getEdgeId_nodeMap c e,
   fun k' i' h' => ⟨getNodeId_preserves c k k' i' h',
     h.1 (k', i') (lookup_some_mem _ _ _ h')⟩,
   fun e' j' h' => ⟨getEdgeId_preserves c e e' j' h',
     h.2 (e', j') (lookup_some_mem _ _ _ h')⟩⟩

theorem converter_id_stable_witness :
    getNodeId (getNodeId freshConverter "a").2 "a"
        = ((getNodeId freshConverter "a").1,
           (getNodeId freshConverter "a").2) ∧
      ((getNodeId freshConverter "a").2).edgeIdMap
        = freshConverter.edgeIdMap :=
  let h := converter_id_stable freshConverter
    (by refine ⟨?_, ?_⟩ <;> intro p hp <;> simp [freshConverter] at hp)
    "a" ("x", "y", none)
  ⟨h.2.2.1, h.2.2.2.2.2.2.1⟩

/-! ## Handshake version negotiation (`connection.py::_handshake`) -/

/-- The server preference list `SUPPORTED_VERSIONS`. -/
def SUPPORTED_VERSIONS : List (Nat × Nat) := [(5, 4), (5, 0), (4, 4), (4, 3)]

/-- Parse the 16-byte proposal block: four big-endian u32 words, each read
as `major = v & 0xFF`, `minor = (v >> 8) & 0xFF`, `range = (v >> 16) & 0xFF`;
words with `major = 0` (unused slots) are dropped. -/
def parseProposals : List Nat → List (Nat × Nat × Nat)
  | b0 :: b1 :: b2 :: b3 :: rest =>
    let v := beVal [b0, b1, b2, b3]
    let major := v &&& 0xFF
    let minor := (v >>> 8) &&& 0xFF
    let range := (v >>> 16) &&& 0xFF
    (if major > 0 then [(major, minor, range)] else []) ++ parseProposals rest
  | _ => []

/-- The inner `for sup_major, sup_minor in SUPPORTED_VERSIONS:` loop of the
handshake: first supported version compatible with one proposal.  The range
test is on Python ints, so `minor - version_range` is signed. -/
def matchProposal (major minor range : Nat) :
    List (Nat × Nat) → Option (Nat × Nat)
  | [] => none
  | (supMajor, supMinor) :: rest =>
    if supMajor = major then
      if range > 0 then
        if (minor : Int) - range ≤ supMinor ∧ supMinor ≤ minor then
          some (supMajor, supMinor)
        else matchProposal major minor range rest
      else
        if supMinor = minor then some (supMajor, supMinor)
        else matchProposal major minor range rest
    else matchProposal major minor range rest

/-- The outer `for major, minor, version_range in versions:` loop: first
proposal with a compatible supported version wins. -/
def selectVersion : List (Nat × Nat × Nat) → Option (Nat × Nat)
  | [] => none
  | (major, minor, range) :: rest =>
    match matchProposal major minor range SUPPORTED_VERSIONS with
    | some sel => some sel
    | none => selectVersion rest

/-- `_handshake` after the magic bytes: the 4 reply bytes and whether the
handshake proceeds (`true` → transition to AUTHENTICATION) or the server
replies `00 00 00 00` and closes (`false`).  On success the reply is
`struct.pack('>I', (minor << 8) | major)`. -/
def handshakeReply (versionData : List Nat) : List Nat × Bool :=
  match selectVersion (parseProposals versionData) with
  | none => ([0, 0, 0, 0], false)
  | some (major, minor) => (u32be ((minor <<< 8) ||| major), true)

/-- The claim's acceptance condition, written from its words: accept
`(supMajor, supMinor)` for a proposal `(major, minor, range)` when the
majors are equal and either `range = 0` with equal minors or `range > 0`
with `minor − range ≤ supMinor ≤ minor`. -/
def claimAccepts (major minor range supMajor supMinor : Nat) : Prop :=
  supMajor = major ∧
    ((range = 0 ∧ supMinor = minor) ∨
      (range > 0 ∧ (minor : Int) - range ≤ supMinor ∧ supMinor ≤ minor))

instance (major minor range supMajor supMinor : Nat) :
    Decidable (claimAccepts major minor range supMajor supMinor) := by
  unfold claimAccepts
  infer_instance

/-- The claim's selection rule: within one proposal, the first entry of the
preference list satisfying `claimAccepts`. -/
def claimMatch (major minor range : Nat) :
    List (Nat × Nat) → Option (Nat × Nat)
  | [] => none
  | (supMajor, supMinor) :: rest =>
    if claimAccepts major minor range supMajor supMinor
      then some (supMajor, supMinor)
      else claimMatch major minor range rest

/-- The claim's selection rule across proposals: first proposal (in order)
with an accepted entry of the preference list. -/
def claimSelect : List (Nat × Nat × Nat) → Option (Nat × Nat)
  | [] => none
  | (major, minor, range) :: rest =>
    match claimMatch major minor range SUPPORTED_VERSIONS with
    | some sel => some sel
    | none => claimSelect rest

theorem matchProposal_eq_claimMatch (major minor range : Nat)
    (l : List (Nat × Nat)) :
    matchProposal major minor range l = claimMatch major minor range l := by
  induction l with
  | nil => rfl
  | cons p rest ih =>
    rcases p with ⟨supMajor, supMinor⟩
    rw [matchProposal, claimMatch]
    by_cases h1 : supMajor = major
    · rw [if_pos h1]
      by_cases h2 : range > 0
      · rw [if_pos h2]
        by_cases h3 : (minor : Int) - range ≤ supMinor ∧ supMinor ≤ minor
        · rw [if_pos h3, if_pos ⟨h1, Or.inr ⟨h2, h3⟩⟩]
        · rw [if_neg h3, if_neg (by
            intro hc
            rcases hc.2 with ⟨hz, -⟩ | ⟨-, hcond⟩
            · omega
            · exact h3 hcond)]
          exact ih
      · rw [if_neg h2]
        by_cases h4 : supMinor = minor
        · rw [if_pos h4, if_pos ⟨h1, Or.inl ⟨by omega, h4⟩⟩]
        · rw [if_neg h4, if_neg (by
            intro hc
            rcases hc.2 with ⟨-, hm⟩ | ⟨hr, -⟩
            · exact h4 hm
            · omega)]
          exact ih
    · rw [if_neg h1, if_neg (fun hc => h1 hc.1)]
      exact ih

theorem selectVersion_eq_claimSelect (proposals : List (Nat × Nat × Nat)) :
    selectVersion proposals = claimSelect proposals := by
  induction proposals with
  | nil => rfl
  | cons p rest ih =>
    rcases p with ⟨major, minor, range⟩
    rw [selectVersion, claimSelect, ← matchProposal_eq_claimMatch]
    cases matchProposal major minor range SUPPORTED_VERSIONS with
    | some sel => rfl
    | none => exact ih

theorem matchProposal_mem (major minor range : Nat) (l : List (Nat × Nat))
    (p : Nat × Nat) (h : matchProposal major minor range l = some p) :
    p ∈ l := by
  induction l with
  | nil => simp [matchProposal] at h
  | cons q rest ih =>
    rcases q with ⟨supMajor, supMinor⟩
    rw [matchProposal] at h
    split_ifs at h <;>
      first
        | (simp only [Option.some.injEq] at h; subst h; simp)
        | exact List.mem_cons_of_mem _ (ih h)

theorem selectVersion_mem (proposals : List (Nat × Nat × Nat)) (p : Nat × Nat)
    (h : selectVersion proposals = some p) : p ∈ SUPPORTED_VERSIONS := by
  induction proposals with
  | nil => simp [selectVersion] at h
  | cons q rest ih =>
    rcases q with ⟨major, minor, range⟩
    rw [selectVersion] at h
    cases hm : matchProposal major minor range SUPPORTED_VERSIONS with
    | some sel =>
      rw [hm] at h
      simp only [Option.some.injEq] at h
      subst h
      exact matchProposal_mem _ _ _ _ _ hm
    | none =>
      rw [hm] at h
      exact ih h

/-- **C6**: the handshake selects the first compatible version by scanning
the proposals in order and, within each, the preference list
(5,4), (5,0), (4,4), (4,3), with the claim's acceptance condition
(`selectVersion = claimSelect`); on a match the 4-byte reply is
`00 00 minor major` and the handshake proceeds; with no match the reply is
`00 00 00 00` and the connection closes. -/
theorem handshake_first_compatible (versionData : List Nat) :
    selectVersion (parseProposals versionData)
        = claimSelect (parseProposals versionData) ∧
      (selectVersion (parseProposals versionData) = none →
        handshakeReply versionData = ([0, 0, 0, 0], false)) ∧
      ∀ major minor,
        selectVersion (parseProposals versionData) = some (major, minor) →
          handshakeReply versionData = ([0, 0, minor, major], true) := by
  refine ⟨selectVersion_eq_claimSelect _, ?_, ?_⟩
  · intro h
    rw [handshakeReply, h]
  · intro major minor h
    rw [handshakeReply, h]
    have hmem := selectVersion_mem _ _ h
    fin_cases hmem <;> rfl

theorem handshake_first_compatible_witness :
    handshakeReply [0, 0, 0, 5,  0, 0, 0, 0,  0, 0, 0, 0,  0, 0, 0, 0]
      = ([0, 0, 0, 5], true) :=
  (handshake_first_compatible
      [0, 0, 0, 5,  0, 0, 0, 0,  0, 0, 0, 0,  0, 0, 0, 0]).2.2
    5 0 (by decide)

/-! ## Path conversion (`converter.py::_convert_path`)

The direction/index bookkeeping of `_convert_path` depends only on: whether
each element of the `__path__` sequence is a dict, its `__node_id__` entry
(if any) and its `__end_node__` entry (if any).  `PathElem` models exactly
these observations; labels, properties and the converter ID tables feed the
node/relationship payloads, not the `indices` list. -/

/-- One element of a `__path__` sequence: a Python dict (with its optional
`__node_id__` and `__end_node__` keys) or a non-dict value. -/
inductive PathElem where
  | dict (nodeId : Option String) (endNode : Option String)
  | nondict
deriving Repr, DecidableEq

/-- Position of `k` in the deduplicated node list, appending it if new:
`node_index_map` plus `nodes.append` in the even-position branch. -/
def lookupOrAppend (nodes : List String) (k : String) : List String × Nat :=
  match nodes.indexOf? k with
  | some i => (nodes, i)
  | none => (nodes ++ [k], nodes.length)

/-- The direction test of `_convert_path` for one relationship element:
if a following element exists and is a dict containing `__node_id__`,
compare that key with the relationship's `__end_node__` (forward
`relIndex + 1` on equality, backward `-(relIndex + 1)` otherwise); in every
other situation — no following element, or a following non-node element —
append the forward index `relIndex + 1`. -/
def pathDirIndex (relIndex : Nat) (endNode : Option String)
    (next : Option PathElem) : Int :=
  match next with
  | some (.dict (some nextKey) _) =>
    if some nextKey = endNode then (relIndex : Int) + 1
    else -((relIndex : Int) + 1)
  | _ => (relIndex : Int) + 1

/-- The `for i, element in enumerate(path_data):` loop of `_convert_path`,
restricted to its `indices` output (the deduplicated node list and the
relationship counter are the loop state).  `evenPos` says whether the
current element sits at an even position; the head of the remaining list
plays `path_data[i+1]` in the direction test. -/
def convertPathLoop (evenPos : Bool) (nodes : List String) (relIndex : Nat)
    (indices : List Int) : List PathElem → List String × Nat × List Int
  | [] => (nodes, relIndex, indices)
  | e :: rest =>
    if evenPos then
      match e with
      | .dict (some k) _ =>
        let (nodes', pos) := lookupOrAppend nodes k
        convertPathLoop false nodes' relIndex (indices ++ [(pos : Int)]) rest
      | _ => convertPathLoop false nodes relIndex indices rest
    else
      match e with
      | .dict _ endNode =>
        convertPathLoop true nodes (relIndex + 1)
          (indices ++ [pathDirIndex relIndex endNode rest.head?]) rest
      | .nondict => convertPathLoop true nodes relIndex indices rest

/-- The `indices` list produced by `_convert_path` for a `__path__`
sequence. -/
def convertPathIndices (path : List PathElem) : List Int :=
  (convertPathLoop true [] 0 [] path).2.2

/-- The direction rule exactly as the claim words it: forward (`+r`) iff
the node element following the relationship has `__node_id__` equal to the
relationship's `__end_node__`; backward (`-r`) in every other case —
including when nothing follows, or a non-node element follows. -/
def claimDirIndex (relIndex : Nat) (endNode : Option String)
    (next : Option PathElem) : Int :=
  match next with
  | some (.dict (some nextKey) _) =>
    if some nextKey = endNode then (relIndex : Int) + 1
    else -((relIndex : Int) + 1)
  | _ => -((relIndex : Int) + 1)

/-- `convertPathLoop` with the original claim's direction rule. -/
def claimPathLoop (evenPos : Bool) (nodes : List String) (relIndex : Nat)
    (indices : List Int) : List PathElem → List String × Nat × List Int
  | [] => (nodes, relIndex, indices)
  | e :: rest =>
    if evenPos then
      match e with
      | .dict (some k) _ =>
        let (nodes', pos) := lookupOrAppend nodes k
        claimPathLoop false nodes' relIndex (indices ++ [(pos : Int)]) rest
      | _ => claimPathLoop false nodes relIndex indices rest
    else
      match e with
      | .dict _ endNode =>
        claimPathLoop true nodes (relIndex + 1)
          (indices ++ [claimDirIndex relIndex endNode rest.head?]) rest
      | .nondict => claimPathLoop true nodes relIndex indices rest

def claimPathIndices (path : List PathElem) : List Int :=
  (claimPathLoop true [] 0 [] path).2.2

/-- **C8, counterexample**: a path whose relationship element is last (no
following node element).  The code records the index `+1` (forward), while
the claim — forward *iff* the following node matches `__end_node__`,
backward in every other case — demands `-1`. -/
theorem convert_path_trailing_rel_forward :
    convertPathIndices
        [.dict (some "a") none, .dict none (some "b")] = [0, 1] ∧
      claimPathIndices
        [.dict (some "a") none, .dict none (some "b")] = [0, -1] ∧
      ([0, 1] : List Int) ≠ [0, -1] := by
  refine ⟨by decide, by decide, by decide⟩

/-- Backward-direction test of the amended claim: the following element
exists, is a node dict, and its `__node_id__` differs from `__end_node__`. -/
def amendedBackward (endNode : Option String) (next : Option PathElem) :
    Bool :=
  match next with
  | some (.dict (some nextKey) _) => some nextKey ≠ endNode
  | _ => false

/-- The amended direction rule: backward exactly when `amendedBackward`,
forward otherwise (in particular forward when the relationship is the last
element or is followed by a non-node element). -/
def amendedDirIndex (relIndex : Nat) (endNode : Option String)
    (next : Option PathElem) : Int :=
  if amendedBackward endNode next then -((relIndex : Int) + 1)
  else (relIndex : Int) + 1

/-- `convertPathLoop` with the amended direction rule. -/
def amendedPathLoop (evenPos : Bool) (nodes : List String) (relIndex : Nat)
    (indices : List Int) : List PathElem → List String × Nat × List Int
  | [] => (nodes, relIndex, indices)
  | e :: rest =>
    if evenPos then
      match e with
      | .dict (some k) _ =>
        let (nodes', pos) := lookupOrAppend nodes k
        amendedPathLoop false nodes' relIndex (indices ++ [(pos : Int)]) rest
      | _ => amendedPathLoop false nodes relIndex indices rest
    else
      match e with
      | .dict _ endNode =>
        amendedPathLoop true nodes (relIndex + 1)
          (indices ++ [amendedDirIndex relIndex endNode rest.head?]) rest
      | .nondict => amendedPathLoop true nodes relIndex indices rest

theorem pathDirIndex_eq_amended (relIndex : Nat) (endNode : Option String)
    (next : Option PathElem) :
    pathDirIndex relIndex endNode next
      = amendedDirIndex relIndex endNode next := by
  rcases next with _ | el
  · rfl
  · rcases el with ⟨nid, nd⟩ | _
    · rcases nid with _ | nk
      · rfl
      · by_cases he : some nk = endNode <;>
          simp [pathDirIndex, amendedDirIndex, amendedBackward, he]
    · rfl

/-- **C8, amended**: for every path conversion, the recorded index for the
`r`-th relationship element is backward (`-r`) exactly when the following
element exists, is a node dict, and its `__node_id__` differs from the
relationship's `__end_node__`; in all other cases — matching following
node, no following element, or a following non-node element — the recorded
index is forward (`+r`).  (Stated as: the conversion loop equals the loop
with the amended direction rule, for every loop state.) -/
theorem convert_path_direction (path : List PathElem) (evenPos : Bool)
    (nodes : List String) (relIndex : Nat) (indices : List Int) :
    convertPathLoop evenPos nodes relIndex indices path
      = amendedPathLoop evenPos nodes relIndex indices path := by
  induction path generalizing evenPos nodes relIndex indices with
  | nil => rfl
  | cons e rest ih =>
    rw [convertPathLoop.eq_def, amendedPathLoop.eq_def]
    cases evenPos with
    | true =>
      rcases e with ⟨nid, nd⟩ | _
      · rcases nid with _ | k
        · simpa using ih false nodes relIndex indices
        · simpa using ih false (lookupOrAppend nodes k).1 relIndex
            (indices ++ [((lookupOrAppend nodes k).2 : Int)])
      · simpa using ih false nodes relIndex indices
    | false =>
      rcases e with ⟨nid, nd⟩ | _
      · simpa [pathDirIndex_eq_amended] using
          ih true nodes (relIndex + 1)
            (indices ++ [amendedDirIndex relIndex nd rest.head?])
      · simpa using ih true nodes relIndex indices

/-! ## Session transactions (`session.py`) -/

/-- `BoltSession`, restricted to the fields the transaction logic touches:
the live graph, the `in_transaction` flag and the `tx_graph` copy.  The
graph is an opaque type `G`; `copy.deepcopy` produces an independent equal
object, which under value semantics is the value itself. -/
structure BoltSession (G : Type) where
  graph : G
  inTx : Bool
  txGraph : Option G

/-- `BoltSession.begin_transaction`: raise when already in a transaction;
otherwise deep-clone the live graph into `tx_graph` and set the flag. -/
def beginTransaction {G : Type} (s : BoltSession G) :
    Except String (BoltSession G) :=
  if s.inTx then .error "Already in transaction"
  else .ok { s with txGraph := some s.graph, inTx := true }

/-- `BoltSession.rollback_transaction`: raise when not in a transaction;
otherwise discard the working copy and clear the flag. -/
def rollbackTransaction {G : Type} (s : BoltSession G) :
    Except String (BoltSession G) :=
  if s.inTx then .ok { s with txGraph := none, inTx := false }
  else .error "Not in transaction"

/-- `BoltSession.get_working_graph`: the transaction copy while
`in_transaction and tx_graph is not None`, else the live graph. -/
def getWorkingGraph {G : Type} (s : BoltSession G) : G :=
  match s.inTx, s.txGraph with
  | true, some g => g
  | _, _ => s.graph

/-- A mutation applied through the handle returned by `get_working_graph`:
if that handle is the transaction copy the mutation lands on `tx_graph`,
otherwise on the live graph (`deepcopy` guarantees the two are never
aliased). -/
def applyMutation {G : Type} (f : G → G) (s : BoltSession G) : BoltSession G :=
  match s.inTx, s.txGraph with
  | true, some g => { s with txGraph := some (f g) }
  | _, _ => { s with graph := f s.graph }

/-- A sequence of mutations applied in order through the working graph. -/
def applyMutations {G : Type} (fs : List (G → G)) (s : BoltSession G) :
    BoltSession G :=
  fs.foldl (fun t f => applyMutation f t) s

theorem applyMutations_tx {G : Type} (fs : List (G → G)) :
    ∀ (s : BoltSession G), s.inTx = true → s.txGraph.isSome →
      (applyMutations fs s).graph = s.graph ∧
        (applyMutations fs s).inTx = true ∧
        ((applyMutations fs s).txGraph).isSome := by
  induction fs with
  | nil => exact fun s h1 h2 => ⟨rfl, h1, h2⟩
  | cons f fs ih =>
    intro s h1 h2
    rcases s with ⟨g, inTx, txg⟩
    rcases txg with _ | g'
    · simp at h2
    · simp only at h1
      subst h1
      have := ih ⟨g, true, some (f g')⟩ rfl (by simp)
      simpa [applyMutations, applyMutation] using this

/-- **C9**: beginning a transaction from outside one succeeds (operating on
a deep clone), and after any sequence of mutations applied to the working
graph, rollback succeeds, discards the copy, and leaves the live graph
exactly as it was before BEGIN. -/
theorem session_rollback_restores (G : Type) (s : BoltSession G)
    (h : s.inTx = false) (fs : List (G → G)) :
    beginTransaction s
        = .ok { s with txGraph := some s.graph, inTx := true } ∧
      ∃ s3, rollbackTransaction
          (applyMutations fs { s with txGraph := some s.graph, inTx := true })
          = .ok s3 ∧ s3.graph = s.graph ∧ s3.inTx = false ∧
          s3.txGraph = none := by
  constructor
  · rw [beginTransaction, if_neg (by rw [h]; exact Bool.false_ne_true)]
  · obtain ⟨hg, htx, hsome⟩ :=
      applyMutations_tx fs { s with txGraph := some s.graph, inTx := true }
        rfl (by simp)
    refine ⟨{ applyMutations fs { s with txGraph := some s.graph, inTx := true }
        with txGraph := none, inTx := false }, ?_, hg, rfl, rfl⟩
    rw [rollbackTransaction, if_pos htx]

theorem session_rollback_restores_witness :
    beginTransaction ({ graph := 0, inTx := false, txGraph := none }
          : BoltSession Nat)
        = .ok { graph := 0, inTx := true, txGraph := some 0 } ∧
      ∃ s3, rollbackTransaction
          (applyMutations [fun x => x + 1]
            { graph := 0, inTx := true, txGraph := some 0 })
          = .ok s3 ∧ s3.graph = 0 ∧ s3.inTx = false ∧ s3.txGraph = none :=
  session_rollback_restores Nat { graph := 0, inTx := false, txGraph := none }
    rfl [fun x => x + 1]

end NxBolt

